import Mathlib

set_option maxHeartbeats 1000000
set_option maxRecDepth 4000

namespace Mcp

/-!
Shallow embedding of the mcp-boilerplate repository.

Strings are modelled as `List Char` throughout; `lc` converts a Lean string
literal to that representation.  Machine numbers that the program treats as
integers (the `limit` argument) are modelled as `Int`; JavaScript `slice`
semantics for negative indices are embedded explicitly.
-/

/-- Convert a string literal into the character-list representation used in
this development. -/
def lc (s : String) : List Char := s.toList

/-! ### JavaScript string and array primitives used by the handlers -/

/-- JavaScript `String.prototype.toLowerCase`, restricted to the ASCII range
(the only characters occurring in the fixture data and filters of interest). -/
def jsToLower (c : Char) : Char :=
  if 'A' ≤ c ∧ c ≤ 'Z' then Char.ofNat (c.toNat + 32) else c

/-- Lower-case an entire character list (model of `s.toLowerCase()`). -/
def toLowerL (s : List Char) : List Char := s.map jsToLower

/-- Boolean test that the first list is a prefix of the second. -/
def isPrefixL : List Char → List Char → Bool
  | [], _ => true
  | a :: as, bs =>
    match bs with
    | [] => false
    | b :: bt => a == b && isPrefixL as bt

/-- JavaScript `hay.includes(needle)`: `containsSub needle hay` holds iff
`needle` occurs contiguously inside `hay` (the empty needle always occurs). -/
def containsSub (needle : List Char) : List Char → Bool
  | [] => needle.isEmpty
  | c :: r => isPrefixL needle (c :: r) || containsSub needle r

/-- JavaScript `arr.slice(0, n)`: for `n ≥ 0` the first `n` elements, for
negative `n` all but the last `-n` elements (clamped at zero). -/
def jsSliceTo (l : List α) (n : Int) : List α :=
  if 0 ≤ n then l.take n.toNat else l.take ((l.length : Int) + n).toNat

/-- Character test used when splitting text into lines. -/
def noNl (l : List Char) : Bool := l.all (fun c => !(c == '\n'))

/-- Split a character list at newline characters (model of the inverse of
`Array.prototype.join('\n')`). -/
def splitNl : List Char → List (List Char)
  | [] => [[]]
  | c :: r =>
    if c = '\n' then [] :: splitNl r
    else
      match splitNl r with
      | [] => [[c]]
      | l :: ls => (c :: l) :: ls

/-- JavaScript `lines.join('\n')`. -/
def joinNl : List (List Char) → List Char
  | [] => []
  | [l] => l
  | l :: ls => l ++ '\n' :: joinNl ls

/-! ### Data model of `src/tools/example-tools.ts` -/

/-- Value stored in an item's `metadata` record: either a string or the list
of tag strings appearing in the fixture. -/
inductive MVal where
  | s (v : List Char)
  | tags (v : List (List Char))
deriving DecidableEq

/-- A metadata object: an ordered association list of string keys to values,
mirroring a JavaScript `Record<string, unknown>` with insertion order. -/
abbrev MetaObj := List (List Char × MVal)

/-- The `ExampleItem` interface, generic in the representation of the optional
`metadata` field (inline object for the value model, heap reference for the
mutation model). -/
structure ItemG (μ : Type) where
  id : List Char
  title : List Char
  description : List Char
  category : List Char
  metadata : μ
  createdAt : List Char
  updatedAt : List Char
deriving DecidableEq

/-- Item with metadata stored by value. -/
abbrev Item := ItemG (Option MetaObj)

/-- Item with metadata stored as a reference into an explicit heap, used to
state mutation-freedom. -/
abbrev HItem := ItemG (Option Nat)

/-- Fixture item 1 of `exampleDataOperation`. -/
def item1 : Item :=
  { id := lc "1"
    title := lc "Example Item 1"
    description := lc "This is a sample item for demonstration"
    category := lc "sample"
    metadata := none
    createdAt := lc "2024-01-01T00:00:00Z"
    updatedAt := lc "2024-01-01T00:00:00Z" }

/-- Fixture item 2 of `exampleDataOperation`. -/
def item2 : Item :=
  { id := lc "2"
    title := lc "Example Item 2"
    description := lc "Another sample item with different category"
    category := lc "demo"
    metadata := none
    createdAt := lc "2024-01-02T00:00:00Z"
    updatedAt := lc "2024-01-02T00:00:00Z" }

/-- Fixture item 3 of `exampleDataOperation`, the only one with a
pre-existing metadata object. -/
def item3 : Item :=
  { id := lc "3"
    title := lc "Example Item 3"
    description := lc "Third sample item for testing filters"
    category := lc "test"
    metadata := some [(lc "tags", MVal.tags [lc "important", lc "featured"])]
    createdAt := lc "2024-01-03T00:00:00Z"
    updatedAt := lc "2024-01-03T00:00:00Z" }

/-- The static fixture list `allItems` of `example-tools.ts`. -/
def allItems : List Item := [item1, item2, item3]

/-- Validated input of `exampleDataOperation` (`DataOperationInput`). -/
structure DataOperationInput where
  limit : Int
  filter : Option (List Char)
  includeMetadata : Bool
deriving DecidableEq

/-- Result record of `exampleDataOperation`. -/
structure DataResult where
  items : List Item
  totalFound : Nat
  filters : DataOperationInput
deriving DecidableEq

/-- Filter predicate of `exampleDataOperation`: the item's title, description
or category contains the filter text case-insensitively. -/
def itemMatches (f : List Char) (it : ItemG μ) : Bool :=
  containsSub (toLowerL f) (toLowerL it.title) ||
  containsSub (toLowerL f) (toLowerL it.description) ||
  containsSub (toLowerL f) (toLowerL it.category)

/-- The `filteredItems` list of `exampleDataOperation`.  A `some []` filter is
falsy in JavaScript (`if (input.filter)`), so it selects the whole fixture. -/
def fixtureMatches (fl : Option (List Char)) : List Item :=
  match fl with
  | some f => if f.isEmpty then allItems else allItems.filter (fun it => itemMatches f it)
  | none => allItems

/-- Overwrite-or-append assignment on a metadata object, mirroring the effect
of a later property in a JavaScript object literal after a spread. -/
def setKey (m : MetaObj) (k : List Char) (v : MVal) : MetaObj :=
  if m.any (fun p => p.1 == k) then m.map (fun p => if p.1 == k then (k, v) else p)
  else m ++ [(k, v)]

/-- The synthesized metadata object `{...item.metadata, processingTime, source}`;
`now` is the `new Date().toISOString()` reading. -/
def synthMeta (base : MetaObj) (now : List Char) : MetaObj :=
  setKey (setKey base (lc "processingTime") (MVal.s now)) (lc "source")
    (MVal.s (lc "example-data-source"))

/-- The per-item map body of `exampleDataOperation`
(`{...item, metadata: input.includeMetadata ? {...} : item.metadata}`). -/
def withMeta (input : DataOperationInput) (now : List Char) (item : Item) : Item :=
  { item with
    metadata :=
      if input.includeMetadata then some (synthMeta (item.metadata.getD []) now)
      else item.metadata }

/-- `exampleDataOperation` of `example-tools.ts`.  The ~100ms simulated delay
is cosmetic (per the spec) and not modelled; `now` is the clock reading used
for the synthesized `processingTime` field. -/
def exampleDataOperation (input : DataOperationInput) (now : List Char) : DataResult :=
  let filteredItems := fixtureMatches input.filter
  let limitedItems := jsSliceTo filteredItems input.limit
  let finalItems := limitedItems.map (withMeta input now)
  { items := finalItems, totalFound := filteredItems.length, filters := input }

/-! ### Heap-level model of `exampleDataOperation`

To state that no call mutates the fixture's pre-existing metadata object,
metadata objects live in an explicit heap (`List MetaObj`) and items hold
references.  The JavaScript spread `{...item.metadata, ...}` allocates a fresh
object, modelled by appending to the heap. -/

/-- The fixture heap: item 3's metadata object at address 0. -/
def fixtureStore : List MetaObj :=
  [[(lc "tags", MVal.tags [lc "important", lc "featured"])]]

/-- Fixture items with heap references instead of inline metadata. -/
def allItemsH : List HItem :=
  [ { id := lc "1", title := lc "Example Item 1"
      description := lc "This is a sample item for demonstration"
      category := lc "sample", metadata := none
      createdAt := lc "2024-01-01T00:00:00Z", updatedAt := lc "2024-01-01T00:00:00Z" }
  , { id := lc "2", title := lc "Example Item 2"
      description := lc "Another sample item with different category"
      category := lc "demo", metadata := none
      createdAt := lc "2024-01-02T00:00:00Z", updatedAt := lc "2024-01-02T00:00:00Z" }
  , { id := lc "3", title := lc "Example Item 3"
      description := lc "Third sample item for testing filters"
      category := lc "test", metadata := some 0
      createdAt := lc "2024-01-03T00:00:00Z", updatedAt := lc "2024-01-03T00:00:00Z" } ]

/-- Allocating version of the metadata-adding map: every item gets a freshly
allocated synthesized object (JavaScript evaluates the `map` callback left to
right, allocating one object literal per item). -/
def addMetaAll : List HItem → List Char → List MetaObj → List HItem × List MetaObj
  | [], _, st => ([], st)
  | it :: rest, now, st =>
    let base := match it.metadata with
      | some r => st.getD r []
      | none => []
    let obj := synthMeta base now
    let recs := addMetaAll rest now (st ++ [obj])
    ({ it with metadata := some st.length } :: recs.1, recs.2)

/-- Heap-level `exampleDataOperation`: same filtering, slicing and mapping as
the value model, with metadata allocation made explicit.  Returns the items
and pre-truncation count together with the final heap. -/
def exampleDataOperationH (input : DataOperationInput) (now : List Char)
    (st : List MetaObj) : (List HItem × Nat) × List MetaObj :=
  let filteredItems :=
    match input.filter with
    | some f => if f.isEmpty then allItemsH else allItemsH.filter (fun it => itemMatches f it)
    | none => allItemsH
  let limitedItems := jsSliceTo filteredItems input.limit
  if input.includeMetadata then
    let recs := addMetaAll limitedItems now st
    ((recs.1, filteredItems.length), recs.2)
  else
    ((limitedItems.map (fun it => { it with metadata := it.metadata }), filteredItems.length), st)

/-! ### JSON values and `formatResponse` (`src/utils/formatter.ts`)

JSON-serializable values are modelled by a mutual inductive (arrays and
objects as bespoke list types so that structural recursion and induction stay
mutual).  Numbers are integers — every number the program serializes is one —
and object keys keep insertion order, as `JSON.stringify` does. -/

mutual
inductive Json where
  | null : Json
  | jbool (b : Bool) : Json
  | jnum (n : Int) : Json
  | jstr (s : List Char) : Json
  | jarr (xs : Jarr) : Json
  | jobj (kvs : Jobj) : Json

inductive Jarr where
  | nil : Jarr
  | cons (x : Json) (xs : Jarr) : Jarr

inductive Jobj where
  | nil : Jobj
  | cons (k : List Char) (v : Json) (kvs : Jobj) : Jobj
end

deriving instance DecidableEq for Json

/-! Structural size, used as the parser's recursion budget. -/
mutual
def sizeJ : Json → Nat
  | .null => 1
  | .jbool _ => 1
  | .jnum _ => 1
  | .jstr _ => 1
  | .jarr xs => sizeA xs + 1
  | .jobj kvs => sizeO kvs + 1

def sizeA : Jarr → Nat
  | .nil => 1
  | .cons x xs => max (sizeJ x) (sizeA xs) + 1

def sizeO : Jobj → Nat
  | .nil => 1
  | .cons _ v kvs => max (sizeJ v) (sizeO kvs) + 1
end

/-- Decimal digit character (defined by cases so that facts about concrete
digits are decidable). -/
def digitChar : Nat → Char
  | 0 => '0'
  | 1 => '1'
  | 2 => '2'
  | 3 => '3'
  | 4 => '4'
  | 5 => '5'
  | 6 => '6'
  | 7 => '7'
  | 8 => '8'
  | _ => '9'

/-- Hexadecimal digit character (lower case, as `JSON.stringify` emits). -/
def hexDigit : Nat → Char
  | 0 => '0'
  | 1 => '1'
  | 2 => '2'
  | 3 => '3'
  | 4 => '4'
  | 5 => '5'
  | 6 => '6'
  | 7 => '7'
  | 8 => '8'
  | 9 => '9'
  | 10 => 'a'
  | 11 => 'b'
  | 12 => 'c'
  | 13 => 'd'
  | 14 => 'e'
  | _ => 'f'

/-- Decimal digit string of a natural number, most significant digit first. -/
def natDigits (n : Nat) : List Char :=
  if _h : n < 10 then [digitChar n]
  else natDigits (n / 10) ++ [digitChar (n % 10)]
termination_by n
decreasing_by
  exact Nat.div_lt_self (by omega) (by omega)

/-- Decimal rendering of an integer, as `JSON.stringify` prints one. -/
def intDigits (n : Int) : List Char :=
  if n < 0 then '-' :: natDigits (-n).toNat else natDigits n.toNat

/-- Escape a single character inside a JSON string literal, following the
`JSON.stringify` quoting rules (short escapes for the named controls,
`\u00xx` for the remaining control characters). -/
def escapeChar (c : Char) : List Char :=
  if c = '"' then ['\\', '"']
  else if c = '\\' then ['\\', '\\']
  else if c = '\x08' then ['\\', 'b']
  else if c = '\t' then ['\\', 't']
  else if c = '\n' then ['\\', 'n']
  else if c = '\x0C' then ['\\', 'f']
  else if c = '\r' then ['\\', 'r']
  else if c.toNat < 32 then
    ['\\', 'u', '0', '0', hexDigit (c.toNat / 16), hexDigit (c.toNat % 16)]
  else [c]

/-- Escape the body of a JSON string literal. -/
def escape (s : List Char) : List Char := (s.map escapeChar).flatten

/-! Compact serialization: `JSON.stringify(data)`, which inserts no
whitespace. -/
mutual
def compactV : Json → List Char
  | .null => ['n', 'u', 'l', 'l']
  | .jbool true => ['t', 'r', 'u', 'e']
  | .jbool false => ['f', 'a', 'l', 's', 'e']
  | .jnum n => intDigits n
  | .jstr s => '"' :: (escape s ++ ['"'])
  | .jarr xs => '[' :: (compactItems xs ++ [']'])
  | .jobj kvs => '{' :: (compactFields kvs ++ ['}'])

def compactItems : Jarr → List Char
  | .nil => []
  | .cons x .nil => compactV x
  | .cons x (.cons y ys) => compactV x ++ ',' :: compactItems (.cons y ys)

def compactFields : Jobj → List Char
  | .nil => []
  | .cons k v .nil => '"' :: (escape k ++ ['"']) ++ ':' :: compactV v
  | .cons k v (.cons k2 v2 kvs) =>
    '"' :: (escape k ++ ['"']) ++ ':' :: compactV v ++
      ',' :: compactFields (.cons k2 v2 kvs)
end

/-- Indentation of `i` spaces. -/
def indent (i : Nat) : List Char := List.replicate i ' '

/-! Pretty serialization: `JSON.stringify(data, null, 2)`.  `i` is the
indentation of the closing bracket of the enclosing composite. -/
mutual
def prettyV (i : Nat) : Json → List Char
  | .null => ['n', 'u', 'l', 'l']
  | .jbool true => ['t', 'r', 'u', 'e']
  | .jbool false => ['f', 'a', 'l', 's', 'e']
  | .jnum n => intDigits n
  | .jstr s => '"' :: (escape s ++ ['"'])
  | .jarr .nil => ['[', ']']
  | .jarr (.cons x xs) =>
    '[' :: '\n' :: (prettyItems (i + 2) (.cons x xs) ++ '\n' :: (indent i ++ [']']))
  | .jobj .nil => ['{', '}']
  | .jobj (.cons k v kvs) =>
    '{' :: '\n' :: (prettyFields (i + 2) (.cons k v kvs) ++ '\n' :: (indent i ++ ['}']))

def prettyItems (i : Nat) : Jarr → List Char
  | .nil => []
  | .cons x .nil => indent i ++ prettyV i x
  | .cons x (.cons y ys) =>
    indent i ++ prettyV i x ++ ',' :: '\n' :: prettyItems i (.cons y ys)

def prettyFields (i : Nat) : Jobj → List Char
  | .nil => []
  | .cons k v .nil => indent i ++ '"' :: (escape k ++ ['"']) ++ ':' :: ' ' :: prettyV i v
  | .cons k v (.cons k2 v2 kvs) =>
    indent i ++ '"' :: (escape k ++ ['"']) ++ ':' :: ' ' :: prettyV i v ++
      ',' :: '\n' :: prettyFields i (.cons k2 v2 kvs)
end

/-- The `OutputFormat` union of `formatter.ts` (`'json' | 'compact-json'`). -/
inductive OutputFormat where
  | json
  | compactJson
deriving DecidableEq

/-- The `formatResponse` switch of `src/utils/formatter.ts`.  Serialization
of an inductive `Json` value cannot throw, so the catch-and-retry branch of
the source is unreachable in the model. -/
def formatResponse (data : Json) (format : Option OutputFormat) : List Char :=
  match format with
  | some .compactJson => compactV data
  | some .json => prettyV 0 data
  | none => prettyV 0 data

/-! ### A JSON parser, to state the round-trip property -/

/-- JSON whitespace. -/
def isWsC (c : Char) : Bool :=
  (c == '\t' || c == '\n') || (c == '\r' || c == ' ')

/-- Every character of the list is whitespace. -/
def allWs (l : List Char) : Bool := l.all isWsC

/-- Drop leading JSON whitespace. -/
def skipWs : List Char → List Char
  | [] => []
  | c :: r => if isWsC c then skipWs r else c :: r

/-- Accumulating decimal reader: consumes leading digits. -/
def readDigits : Nat → List Char → Nat × List Char
  | acc, [] => (acc, [])
  | acc, c :: r =>
    if c.isDigit then readDigits (acc * 10 + (c.toNat - 48)) r else (acc, c :: r)

/-- Hexadecimal digit test. -/
def isHexC (c : Char) : Bool :=
  c.isDigit || decide ('a' ≤ c ∧ c ≤ 'f') || decide ('A' ≤ c ∧ c ≤ 'F')

/-- Hexadecimal value of a digit character. -/
def hexVal (c : Char) : Nat :=
  if c.isDigit then c.toNat - 48
  else if 'a' ≤ c ∧ c ≤ 'f' then c.toNat - 87
  else if 'A' ≤ c ∧ c ≤ 'F' then c.toNat - 55
  else 0

/-- Read the body of a JSON string literal after its opening quote, decoding
escapes; returns the decoded characters and the text after the closing
quote. -/
def readString : List Char → Option (List Char × List Char)
  | [] => none
  | c :: r =>
    if c = '"' then some ([], r)
    else if c = '\\' then
      match r with
      | [] => none
      | e :: r2 =>
        if e = '"' then (readString r2).map (fun p => ('"' :: p.1, p.2))
        else if e = '\\' then (readString r2).map (fun p => ('\\' :: p.1, p.2))
        else if e = '/' then (readString r2).map (fun p => ('/' :: p.1, p.2))
        else if e = 'b' then (readString r2).map (fun p => ('\x08' :: p.1, p.2))
        else if e = 'f' then (readString r2).map (fun p => ('\x0C' :: p.1, p.2))
        else if e = 'n' then (readString r2).map (fun p => ('\n' :: p.1, p.2))
        else if e = 'r' then (readString r2).map (fun p => ('\r' :: p.1, p.2))
        else if e = 't' then (readString r2).map (fun p => ('\t' :: p.1, p.2))
        else if e = 'u' then
          match r2 with
          | h1 :: h2 :: h3 :: h4 :: r3 =>
            if isHexC h1 && isHexC h2 && isHexC h3 && isHexC h4 then
              (readString r3).map (fun p =>
                (Char.ofNat (((hexVal h1 * 16 + hexVal h2) * 16 + hexVal h3) * 16 + hexVal h4)
                  :: p.1, p.2))
            else none
          | _ => none
        else none
    else (readString r).map (fun p => (c :: p.1, p.2))
termination_by s => s.length
decreasing_by all_goals simp_arith

/-! Fueled recursive-descent JSON value parser.  Whitespace is skipped before
every token, so both the compact and the pretty rendering parse. -/
mutual
def parseValue : Nat → List Char → Option (Json × List Char)
  | 0, _ => none
  | f + 1, s =>
    match skipWs s with
    | [] => none
    | c :: r =>
      if c = 'n' then
        if isPrefixL ['u', 'l', 'l'] r then some (.null, r.drop 3) else none
      else if c = 't' then
        if isPrefixL ['r', 'u', 'e'] r then some (.jbool true, r.drop 3) else none
      else if c = 'f' then
        if isPrefixL ['a', 'l', 's', 'e'] r then some (.jbool false, r.drop 4) else none
      else if c = '"' then
        match readString r with
        | some (cs, r2) => some (.jstr cs, r2)
        | none => none
      else if c = '-' then
        match r with
        | d :: _ =>
          if d.isDigit then
            some (.jnum (-((readDigits 0 r).1 : Int)), (readDigits 0 r).2)
          else none
        | [] => none
      else if c = '[' then
        match parseArrItems f r with
        | some (xs, r2) => some (.jarr xs, r2)
        | none => none
      else if c = '{' then
        match parseObjItems f r with
        | some (kvs, r2) => some (.jobj kvs, r2)
        | none => none
      else if c.isDigit then
        some (.jnum ((readDigits 0 (c :: r)).1 : Int), (readDigits 0 (c :: r)).2)
      else none

def parseArrItems : Nat → List Char → Option (Jarr × List Char)
  | 0, _ => none
  | f + 1, s =>
    match skipWs s with
    | [] => none
    | c :: r =>
      if c = ']' then some (.nil, r)
      else
        match parseValue f (c :: r) with
        | some (v, r1) =>
          match skipWs r1 with
          | [] => none
          | c2 :: r2 =>
            if c2 = ',' then
              match parseArrItems f r2 with
              | some (vs, r3) => some (.cons v vs, r3)
              | none => none
            else if c2 = ']' then some (.cons v .nil, r2)
            else none
        | none => none

def parseObjItems : Nat → List Char → Option (Jobj × List Char)
  | 0, _ => none
  | f + 1, s =>
    match skipWs s with
    | [] => none
    | c :: r =>
      if c = '}' then some (.nil, r)
      else if c = '"' then
        match readString r with
        | some (k, r1) =>
          match skipWs r1 with
          | [] => none
          | c2 :: r2 =>
            if c2 = ':' then
              match parseValue f r2 with
              | some (v, r3) =>
                match skipWs r3 with
                | [] => none
                | c3 :: r4 =>
                  if c3 = ',' then
                    match parseObjItems f r4 with
                    | some (kvs, r5) => some (.cons k v kvs, r5)
                    | none => none
                  else if c3 = '}' then some (.cons k v .nil, r4)
                  else none
              | none => none
            else none
        | none => none
      else none
end

/-- Boundary condition for number tokens: the following text does not start
with another digit. -/
def noLeadDigit : List Char → Bool
  | [] => true
  | c :: _ => !c.isDigit

/-- Parse a complete JSON document: one value followed by nothing but
whitespace. -/
def parseJson (s : List Char) : Option Json :=
  match parseValue (s.length + 1) s with
  | some (x, r) => if skipWs r = [] then some x else none
  | none => none

/-! Predicate for stating the compact mode's whitespace freedom: no string
(or object key) of the value contains a whitespace character. -/
mutual
def noWsJ : Json → Bool
  | .null => true
  | .jbool _ => true
  | .jnum _ => true
  | .jstr s => !s.any isWsC
  | .jarr xs => noWsA xs
  | .jobj kvs => noWsO kvs

def noWsA : Jarr → Bool
  | .nil => true
  | .cons x xs => noWsJ x && noWsA xs

def noWsO : Jobj → Bool
  | .nil => true
  | .cons k v kvs => (!k.any isWsC) && noWsJ v && noWsO kvs
end

/-! ### `get_system_info` handler (`src/server.ts`) -/

/-- The `info` selector enum of the `get_system_info` schema. -/
inductive InfoSel where
  | date
  | timezone
  | version
  | all
deriving DecidableEq

/-- The fixed guidance sentence of the `all` response. -/
def guidance : List Char := lc "Use this information for date filtering and context."

/-- The response text of the `get_system_info` handler.  `isoNow` is the
`now.toISOString()` reading and `tz` the resolved IANA timezone name;
`currentDate` is `toISOString().split('T')[0]`, i.e. the characters before
the first `'T'`. -/
def systemInfoText (isoNow tz : List Char) (sel : InfoSel) : List Char :=
  let currentDate := isoNow.takeWhile (fun c => !(c == 'T'))
  match sel with
  | .date => lc "Current date: " ++ currentDate
  | .timezone => lc "Timezone: " ++ tz
  | .version => lc "Server version: " ++ lc "0.1.0"
  | .all =>
    joinNl
      [ lc "Current date: " ++ currentDate
      , lc "Current time: " ++ isoNow
      , lc "Timezone: " ++ tz
      , lc "Server version: " ++ lc "0.1.0"
      , []
      , guidance ]

/-- Character class of a `toISOString()` timestamp (digits and the fixed
punctuation `-:.TZ`). -/
def isoChar (c : Char) : Bool :=
  c.isDigit || c == '-' || c == ':' || c == '.' || c == 'T' || c == 'Z'

/-! ### Call envelopes and the error boundary (`src/server.ts`) -/

/-- One content block of a tool response (`{type: 'text', text}`). -/
structure ContentBlock where
  ctype : List Char
  text : List Char
deriving DecidableEq

/-- The envelope returned by a tool handler. -/
structure ToolResponse where
  content : List ContentBlock
deriving DecidableEq

/-- A raised JavaScript value as the catch clause distinguishes it:
an `Error` carrying a message, or any other thrown value. -/
inductive JsThrown where
  | err (message : List Char)
  | nonErr
deriving DecidableEq

/-- The interpolated message of the catch clause:
`error instanceof Error ? error.message : 'Unknown error occurred'`. -/
def errMsgOrFallback : JsThrown → List Char
  | .err m => m
  | .nonErr => lc "Unknown error occurred"

/-- The `get_data` registration's call boundary: the handler body's outcome
(the awaited `exampleDataOperation` result already serialized, or a raise) is
wrapped by the `try`/`catch` of `server.ts` lines 49–71.  A raise becomes a
single text block `"Error: " + message` and the call still completes. -/
def getDataBoundary (outputMode : Option OutputFormat) (outcome : Except JsThrown Json) :
    Except JsThrown ToolResponse :=
  match outcome with
  | .ok result => .ok { content := [{ ctype := lc "text", text := formatResponse result outputMode }] }
  | .error e => .ok { content := [{ ctype := lc "text", text := lc "Error: " ++ errMsgOrFallback e }] }

/-- The `get_system_info` registration's call boundary: the handler body
(`server.ts` lines 81–117) contains no `try`/`catch`, so a raise during its
execution propagates out of the handler unchanged. -/
def getSystemInfoBoundary (outcome : Except JsThrown ToolResponse) :
    Except JsThrown ToolResponse :=
  match outcome with
  | .ok resp => .ok resp
  | .error e => .error e

/-- The successful `get_system_info` envelope. -/
def getSystemInfoResponse (isoNow tz : List Char) (sel : InfoSel) : ToolResponse :=
  { content := [{ ctype := lc "text", text := systemInfoText isoNow tz sel }] }

/-- Did the protocol call complete without a propagated raise? -/
def isOkE : Except ε α → Bool
  | .ok _ => true
  | .error _ => false

/-!
## Theorems

Helper lemmas first, then for each claim of the specification exactly one
theorem (plus, where required, a witness instance or counterexample).
-/

/-- Characters of a prefix are characters of the whole list. -/
theorem mem_of_isPrefixL {nd hay : List Char} (h : isPrefixL nd hay = true) :
    ∀ c ∈ nd, c ∈ hay := by
  induction nd generalizing hay with
  | nil => intro c hc; cases hc
  | cons a as ih =>
    cases hay with
    | nil => simp [isPrefixL] at h
    | cons b bs =>
      simp only [isPrefixL, Bool.and_eq_true, beq_iff_eq] at h
      intro c hc
      rcases List.mem_cons.mp hc with rfl | hc
      · exact h.1 ▸ List.mem_cons_self _ _
      · exact List.mem_cons_of_mem _ (ih h.2 c hc)

/-- Characters of an occurring substring are characters of the text. -/
theorem mem_of_containsSub {nd hay : List Char} (h : containsSub nd hay = true) :
    ∀ c ∈ nd, c ∈ hay := by
  induction hay with
  | nil =>
    intro c hc
    simp only [containsSub, List.isEmpty_iff] at h
    subst h; cases hc
  | cons b bs ih =>
    simp only [containsSub, Bool.or_eq_true] at h
    intro c hc
    rcases h with h | h
    · exact mem_of_isPrefixL h c hc
    · exact List.mem_cons_of_mem _ (ih h c hc)

/-- A list is a prefix of itself followed by anything. -/
theorem isPrefixL_self_append (l t : List Char) : isPrefixL l (l ++ t) = true := by
  induction l with
  | nil => rfl
  | cons a as ih => simp [isPrefixL, ih]

/-- A prefix occurrence is an occurrence. -/
theorem containsSub_of_isPrefixL {nd hay : List Char} (h : isPrefixL nd hay = true) :
    containsSub nd hay = true := by
  cases hay with
  | nil =>
    cases nd with
    | nil => rfl
    | cons a as => simp [isPrefixL] at h
  | cons b bs => simp [containsSub, h]

/-- The empty needle occurs in every text. -/
theorem containsSub_nil (hay : List Char) : containsSub [] hay = true := by
  cases hay with
  | nil => rfl
  | cons b bs => simp [containsSub, isPrefixL]

/-- Every item matches the empty filter text. -/
theorem itemMatches_nil (it : ItemG μ) : itemMatches [] it = true := by
  simp [itemMatches, toLowerL, containsSub_nil]

/-- Membership in a JavaScript slice implies membership in the array. -/
theorem mem_jsSliceTo {l : List α} {n : Int} {a : α} (h : a ∈ jsSliceTo l n) : a ∈ l := by
  unfold jsSliceTo at h
  split at h <;> exact List.take_subset _ _ h

/-- Members of the filtered fixture list are fixture items. -/
theorem mem_fixtureMatches {fl : Option (List Char)} {it : Item}
    (h : it ∈ fixtureMatches fl) : it ∈ allItems := by
  cases fl with
  | none => exact h
  | some f =>
    by_cases hf : f.isEmpty = true
    · simpa [fixtureMatches, hf] using h
    · simp only [fixtureMatches, hf, if_false] at h
      exact (List.mem_filter.mp h).1

/-- The map body never changes the text fields the filter inspects. -/
theorem itemMatches_withMeta (F : List Char) (inp : DataOperationInput) (now : List Char)
    (it : Item) : itemMatches F (withMeta inp now it) = itemMatches F it := rfl

/-- With `includeMetadata` false the map body is the identity. -/
theorem withMeta_false {inp : DataOperationInput} (h : inp.includeMetadata = false)
    (now : List Char) (it : Item) : withMeta inp now it = it := by
  unfold withMeta
  rw [h]
  rfl

/-- Fixture items are uniquely identified by their `id`. -/
theorem allItems_id_inj :
    ∀ a ∈ allItems, ∀ b ∈ allItems, a.id = b.id → a = b := by decide

/-- Claim C1 — for every filter string F, every returned item's title,
description or category contains F case-insensitively; fixture items not
matching F are excluded (no returned item carries their id); and with no
filter the returned items are exactly the fixture list truncated by the
limit (compared by id, since metadata may be synthesized). -/
theorem c1_filter_semantics (F : List Char) (L : Int) (im : Bool) (now : List Char) :
    (∀ j ∈ (exampleDataOperation ⟨L, some F, im⟩ now).items, itemMatches F j = true)
    ∧ (∀ i ∈ allItems, itemMatches F i = false →
        ∀ j ∈ (exampleDataOperation ⟨L, some F, im⟩ now).items, j.id ≠ i.id)
    ∧ (exampleDataOperation ⟨L, none, im⟩ now).items.map (fun it => it.id)
        = (jsSliceTo allItems L).map (fun it => it.id) := by
  refine ⟨?_, ?_, ?_⟩
  · intro j hj
    simp only [exampleDataOperation, List.mem_map] at hj
    obtain ⟨i, hi, rfl⟩ := hj
    have hi' : i ∈ fixtureMatches (some F) := mem_jsSliceTo hi
    rw [itemMatches_withMeta]
    unfold fixtureMatches at hi'
    cases F with
    | nil => exact itemMatches_nil i
    | cons a as =>
      simp only [List.isEmpty_cons, if_neg] at hi'
      exact (List.mem_filter.mp hi').2
  · intro i hi hnm j hj hid
    simp only [exampleDataOperation, List.mem_map] at hj
    obtain ⟨i', hi', rfl⟩ := hj
    have hmem : i' ∈ fixtureMatches (some F) := mem_jsSliceTo hi'
    have hidEq : i'.id = i.id := hid
    cases F with
    | nil => rw [itemMatches_nil i] at hnm; cases hnm
    | cons a as =>
      unfold fixtureMatches at hmem
      simp only [List.isEmpty_cons, if_neg] at hmem
      obtain ⟨hall, hmatch⟩ := List.mem_filter.mp hmem
      have : i' = i := allItems_id_inj i' hall i hi hidEq
      rw [this] at hmatch
      rw [hmatch] at hnm
      cases hnm
  · simp only [exampleDataOperation]
    rw [List.map_map]
    rfl

/-- Witness for C1 at the concrete filter "demo" (items 1 and 2 match —
"demonstration" contains "demo" — item 3 does not). -/
theorem c1_filter_semantics_witness :
    item3 ∈ allItems
    ∧ itemMatches (lc "demo") item3 = false
    ∧ withMeta ⟨10, some (lc "demo"), false⟩ [] item1
        ∈ (exampleDataOperation ⟨10, some (lc "demo"), false⟩ []).items
    ∧ itemMatches (lc "demo") (withMeta ⟨10, some (lc "demo"), false⟩ [] item1) = true
    ∧ (withMeta ⟨10, some (lc "demo"), false⟩ [] item1).id ≠ item3.id
    ∧ (exampleDataOperation ⟨10, none, false⟩ []).items.map (fun it => it.id)
        = (jsSliceTo allItems 10).map (fun it => it.id) := by
  refine ⟨by decide, by decide, by decide, ?_, ?_, ?_⟩
  · exact (c1_filter_semantics (lc "demo") 10 false []).1 _ (by decide)
  · exact (c1_filter_semantics (lc "demo") 10 false []).2.1 item3 (by decide) (by decide) _
      (by decide)
  · exact (c1_filter_semantics (lc "demo") 10 false []).2.2

/-- Claim C2 — for every valid limit L in [1,100], the data-lookup result
holds at most L items. -/
theorem c2_limit_bound (L : Int) (h1 : 1 ≤ L) (h2 : L ≤ 100) (fl : Option (List Char))
    (im : Bool) (now : List Char) :
    ((exampleDataOperation ⟨L, fl, im⟩ now).items).length ≤ L.toNat := by
  unfold exampleDataOperation jsSliceTo
  simp only [List.length_map]
  rw [if_pos (by omega : (0 : Int) ≤ L)]
  calc (List.take L.toNat (fixtureMatches fl)).length
      = min L.toNat (fixtureMatches fl).length := List.length_take _ _
    _ ≤ L.toNat := Nat.min_le_left _ _

/-- Witness for C2 at the valid limit 2. -/
theorem c2_limit_bound_witness :
    (1 : Int) ≤ 2 ∧ (2 : Int) ≤ 100
    ∧ ((exampleDataOperation ⟨2, none, false⟩ []).items).length ≤ (2 : Int).toNat :=
  ⟨by decide, by decide, c2_limit_bound 2 (by decide) (by decide) none false []⟩

/-- Claim C3 — `totalFound` is the pre-truncation match count, and does not
depend on the limit (nor on metadata inclusion or the clock). -/
theorem c3_totalFound_pretruncation (i : DataOperationInput) (now now2 : List Char)
    (L : Int) (b : Bool) :
    (exampleDataOperation i now).totalFound = (fixtureMatches i.filter).length
    ∧ (exampleDataOperation i now).totalFound
        = (exampleDataOperation { i with limit := L, includeMetadata := b } now2).totalFound :=
  ⟨rfl, rfl⟩

/-- Counterexample to claim C4 — with filter "sample", `totalFound` is not 2:
all three fixture descriptions contain "sample". -/
theorem c4_counterexample :
    (exampleDataOperation ⟨2, some (lc "sample"), false⟩ []).totalFound ≠ 2 := by decide

/-- Claim C4 as amended — data-lookup with limit 2 and filter "sample" yields
exactly 2 items and `totalFound` = 3, because all three fixture items contain
"sample" (item 3's description is "Third sample item for testing filters"). -/
theorem c4_amended_sample_call :
    (exampleDataOperation ⟨2, some (lc "sample"), false⟩ []).items.length = 2
    ∧ (exampleDataOperation ⟨2, some (lc "sample"), false⟩ []).totalFound = 3 := by decide

/-- With `includeMetadata` false every returned item is literally a fixture
record. -/
theorem c8_items_are_fixture {fl : Option (List Char)} {L : Int} {now : List Char} :
    ∀ j ∈ (exampleDataOperation ⟨L, fl, false⟩ now).items, j ∈ allItems := by
  intro j hj
  simp only [exampleDataOperation, List.mem_map] at hj
  obtain ⟨i, hi, rfl⟩ := hj
  rw [withMeta_false rfl]
  exact mem_fixtureMatches (mem_jsSliceTo hi)

/-- Claim C8 — when `includeMetadata` is false, each returned item's metadata
is exactly the fixture item's metadata, and in particular no returned item
carries a synthesized `processingTime` or `source` entry. -/
theorem c8_no_synthesized_metadata (fl : Option (List Char)) (L : Int) (now : List Char) :
    (∀ j ∈ (exampleDataOperation ⟨L, fl, false⟩ now).items, j ∈ allItems)
    ∧ (∀ j ∈ (exampleDataOperation ⟨L, fl, false⟩ now).items, ∀ v : MVal,
        ¬((lc "processingTime", v) ∈ j.metadata.getD []
          ∨ (lc "source", v) ∈ j.metadata.getD [])) := by
  refine ⟨c8_items_are_fixture, ?_⟩
  intro j hj v hbad
  have hfix : j ∈ allItems := c8_items_are_fixture j hj
  have hkeys : ∀ i ∈ allItems, ∀ p ∈ i.metadata.getD [],
      ¬(p.1 = lc "processingTime" ∨ p.1 = lc "source") := by decide
  rcases hbad with hbad | hbad
  · exact hkeys j hfix _ hbad (Or.inl rfl)
  · exact hkeys j hfix _ hbad (Or.inr rfl)

/-- Witness for C8 at a concrete call (limit 10, no filter). -/
theorem c8_no_synthesized_metadata_witness :
    item3 ∈ (exampleDataOperation ⟨10, none, false⟩ []).items
    ∧ item3 ∈ allItems
    ∧ (¬((lc "processingTime", MVal.s []) ∈ item3.metadata.getD []
        ∨ (lc "source", MVal.s []) ∈ item3.metadata.getD [])) :=
  ⟨by decide, by decide,
    (c8_no_synthesized_metadata none 10 []).2 item3 (by decide) (MVal.s [])⟩

/-- Counterexample to claim C9 as stated — with `includeMetadata` true the
result is not a function of the input and the fixture alone: it embeds the
clock reading used for `processingTime`. -/
theorem c9_counterexample :
    exampleDataOperation ⟨10, none, true⟩ (lc "2024-01-01T00:00:00.000Z")
      ≠ exampleDataOperation ⟨10, none, true⟩ (lc "2024-01-02T00:00:00.000Z") := by decide

/-- The allocating map only ever appends to the heap. -/
theorem addMetaAll_extends (its : List HItem) (now : List Char) (st : List MetaObj) :
    ∃ ext, (addMetaAll its now st).2 = st ++ ext := by
  induction its generalizing st with
  | nil => exact ⟨[], by simp [addMetaAll]⟩
  | cons it rest ih =>
    simp only [addMetaAll]
    obtain ⟨ext, hext⟩ := ih (st ++ [synthMeta (match it.metadata with
      | some r => st.getD r []
      | none => []) now])
    rw [hext, List.append_assoc]
    exact ⟨_, rfl⟩

/-- Taking back the original length from an extended heap returns the
original heap. -/
theorem take_length_append (l t : List α) : (l ++ t).take l.length = l := by
  induction l with
  | nil => rfl
  | cons a as ih => simp [List.take, ih]

/-- Claim C9 as amended — no call mutates any pre-existing heap object (item
3's metadata object included): the heap after a call extends the heap before
it.  The result is a pure function of the input, the fixture and the clock
reading; when `includeMetadata` is false the clock is not read, so the result
is a pure function of input and fixture alone. -/
theorem c9_amended_no_mutation (input : DataOperationInput) (now : List Char)
    (st : List MetaObj) :
    ((exampleDataOperationH input now st).2).take st.length = st
    ∧ (input.includeMetadata = false →
        ∀ now2 : List Char, exampleDataOperation input now = exampleDataOperation input now2) := by
  constructor
  · unfold exampleDataOperationH
    cases him : input.includeMetadata with
    | false => simp [List.take_length]
    | true =>
      simp only [if_true]
      obtain ⟨ext, hext⟩ := addMetaAll_extends
        (jsSliceTo (match input.filter with
          | some f => if f.isEmpty then allItemsH else allItemsH.filter (fun it => itemMatches f it)
          | none => allItemsH) input.limit) now st
      rw [hext]
      exact take_length_append st ext
  · intro him now2
    unfold exampleDataOperation
    have : ∀ it, withMeta input now it = withMeta input now2 it := by
      intro it
      rw [withMeta_false him, withMeta_false him]
    simp only [List.map_congr_left (fun a _ => this a)]

/-- Witness for C9's amended theorem at a concrete call over the fixture
heap. -/
theorem c9_amended_no_mutation_witness :
    ((exampleDataOperationH ⟨10, none, false⟩ [] fixtureStore).2).take fixtureStore.length
        = fixtureStore
    ∧ exampleDataOperation ⟨10, none, false⟩ [] = exampleDataOperation ⟨10, none, false⟩ (lc "x") :=
  ⟨(c9_amended_no_mutation ⟨10, none, false⟩ [] fixtureStore).1,
    (c9_amended_no_mutation ⟨10, none, false⟩ [] fixtureStore).2 rfl (lc "x")⟩

/-- Claim C10 — `exampleDataOperation` enforces no bounds and raises no
error: limit 0 yields no items, a negative limit removes the last `|limit|`
matched elements (JavaScript `slice(0, limit)` semantics), and `totalFound`
always reports the full match count. -/
theorem c10_unbounded_limit (fl : Option (List Char)) (im : Bool) (now : List Char)
    (L : Int) (hL : L < 0) :
    (exampleDataOperation ⟨0, fl, im⟩ now).items = []
    ∧ (exampleDataOperation ⟨0, fl, im⟩ now).totalFound = (fixtureMatches fl).length
    ∧ (exampleDataOperation ⟨L, fl, im⟩ now).items.map (fun it => it.id)
        = ((fixtureMatches fl).take ((fixtureMatches fl).length - L.natAbs)).map
            (fun it => it.id)
    ∧ (exampleDataOperation ⟨L, fl, im⟩ now).totalFound = (fixtureMatches fl).length := by
  refine ⟨?_, rfl, ?_, rfl⟩
  · simp [exampleDataOperation, jsSliceTo]
  · simp only [exampleDataOperation]
    rw [List.map_map]
    unfold jsSliceTo
    rw [if_neg (by omega : ¬(0 : Int) ≤ L)]
    have harg : (((fixtureMatches fl).length : Int) + L).toNat
        = (fixtureMatches fl).length - L.natAbs := by omega
    rw [harg]
    rfl

/-- Witness for C10 at limit −1 with filter "sample" (3 matches, last one
removed). -/
theorem c10_unbounded_limit_witness :
    (-1 : Int) < 0
    ∧ (exampleDataOperation ⟨0, some (lc "sample"), false⟩ []).items = []
    ∧ (exampleDataOperation ⟨0, some (lc "sample"), false⟩ []).totalFound
        = (fixtureMatches (some (lc "sample"))).length
    ∧ (exampleDataOperation ⟨-1, some (lc "sample"), false⟩ []).items.map (fun it => it.id)
        = ((fixtureMatches (some (lc "sample"))).take
            ((fixtureMatches (some (lc "sample"))).length - (-1 : Int).natAbs)).map
              (fun it => it.id)
    ∧ (exampleDataOperation ⟨-1, some (lc "sample"), false⟩ []).totalFound
        = (fixtureMatches (some (lc "sample"))).length := by
  have h := c10_unbounded_limit (some (lc "sample")) false [] (-1) (by decide)
  exact ⟨by decide, h.1, h.2.1, h.2.2.1, h.2.2.2⟩

/-- Counterexample to claim C5 as stated — a raise during `get_system_info`
execution is not converted into an "Error: "-text envelope: the repository's
handler has no catch, so the call does not complete successfully. -/
theorem c5_counterexample :
    isOkE (getSystemInfoBoundary (Except.error (JsThrown.err (lc "boom")))) = false := rfl

/-- Claim C5 as amended — the `get_data` call boundary catches every raise
and returns a single text block `"Error: " + message` (message falling back
to "Unknown error occurred" for a non-`Error` value), the call completing
successfully; the `get_system_info` handler has no catch in this repository,
so a raise propagates unchanged. -/
theorem c5_amended_error_translation (m : Option OutputFormat) (msg : List Char) :
    getDataBoundary m (Except.error (JsThrown.err msg))
        = Except.ok { content := [{ ctype := lc "text", text := lc "Error: " ++ msg }] }
    ∧ getDataBoundary m (Except.error JsThrown.nonErr)
        = Except.ok { content :=
            [{ ctype := lc "text", text := lc "Error: Unknown error occurred" }] }
    ∧ isOkE (getDataBoundary m (Except.error (JsThrown.err msg))) = true
    ∧ getSystemInfoBoundary (Except.error (JsThrown.err msg))
        = Except.error (JsThrown.err msg) := by
  refine ⟨rfl, ?_, rfl, rfl⟩
  have : lc "Error: " ++ errMsgOrFallback JsThrown.nonErr
      = lc "Error: Unknown error occurred" := by decide
  simp [getDataBoundary, this]

/-- Splitting a newline-free line yields that single line. -/
theorem splitNl_noNl {l : List Char} (h : noNl l = true) : splitNl l = [l] := by
  induction l with
  | nil => rfl
  | cons c r ih =>
    simp only [noNl, List.all_cons, Bool.and_eq_true] at h
    have hc : ¬ c = '\n' := by
      intro e
      subst e
      simp at h
    have hr : splitNl r = [r] := ih (by simp [noNl, h.2])
    simp [splitNl, hc, hr]

/-- Splitting after a newline-free first line peels it off. -/
theorem splitNl_append {l : List Char} (h : noNl l = true) (t : List Char) :
    splitNl (l ++ '\n' :: t) = l :: splitNl t := by
  induction l with
  | nil => simp [splitNl]
  | cons c r ih =>
    simp only [noNl, List.all_cons, Bool.and_eq_true] at h
    have hc : ¬ c = '\n' := by
      intro e
      subst e
      simp at h
    have hr := ih (by simp [noNl, h.2])
    simp [splitNl, hc, hr]

/-- Characters of a well-formed ISO timestamp are never newlines. -/
theorem noNl_of_iso {l : List Char} (h : l.all isoChar = true) : noNl l = true := by
  simp only [noNl, List.all_eq_true] at *
  intro c hc
  have hiso := h c hc
  rcases eq_or_ne c '\n' with rfl | hne
  · exact absurd hiso (by decide)
  · simp [hne]

/-- The date component inherits the ISO character class. -/
theorem iso_takeWhile {isoNow : List Char} (h : isoNow.all isoChar = true)
    (p : Char → Bool) : (isoNow.takeWhile p).all isoChar = true := by
  rw [List.all_eq_true] at *
  intro c hc
  exact h c ((List.takeWhile_sublist p).subset hc)

/-- Claim C7 — `system-info("date")` is a "Current date:" line containing no
"Timezone:" text, and `system-info()` (default "all") splits at newlines into
exactly the four labelled lines, a blank line, and the guidance sentence. -/
theorem c7_system_info_lines (isoNow tz : List Char)
    (hIso : isoNow.all isoChar = true) (hTz : noNl tz = true) :
    containsSub (lc "Current date: ") (systemInfoText isoNow tz .date) = true
    ∧ containsSub (lc "Timezone:") (systemInfoText isoNow tz .date) = false
    ∧ splitNl (systemInfoText isoNow tz .all) =
        [ lc "Current date: " ++ isoNow.takeWhile (fun c => !(c == 'T'))
        , lc "Current time: " ++ isoNow
        , lc "Timezone: " ++ tz
        , lc "Server version: 0.1.0"
        , []
        , guidance ] := by
  have hdate : noNl (lc "Current date: " ++ isoNow.takeWhile (fun c => !(c == 'T'))) = true := by
    simp only [noNl, List.all_append, Bool.and_eq_true]
    exact ⟨by decide, noNl_of_iso (iso_takeWhile hIso _)⟩
  refine ⟨?_, ?_, ?_⟩
  · exact containsSub_of_isPrefixL (isPrefixL_self_append _ _)
  · cases hcs : containsSub (lc "Timezone:") (systemInfoText isoNow tz .date) with
    | false => rfl
    | true =>
      exfalso
      have hz : 'z' ∈ systemInfoText isoNow tz InfoSel.date :=
        mem_of_containsSub hcs 'z' (by decide)
      simp only [systemInfoText, List.mem_append] at hz
      rcases hz with hz | hz
      · exact absurd hz (by decide)
      · have : 'z' ∈ isoNow := (List.takeWhile_sublist _).subset hz
        exact absurd (List.all_eq_true.mp hIso 'z' this) (by decide)
  · have htime : noNl (lc "Current time: " ++ isoNow) = true := by
      simp only [noNl, List.all_append, Bool.and_eq_true]
      exact ⟨by decide, noNl_of_iso hIso⟩
    have htzline : noNl (lc "Timezone: " ++ tz) = true := by
      simp only [noNl, List.all_append, Bool.and_eq_true]
      exact ⟨by decide, hTz⟩
    have hver : lc "Server version: " ++ lc "0.1.0" = lc "Server version: 0.1.0" := by decide
    simp only [systemInfoText, guidance, joinNl, hver]
    rw [splitNl_append hdate, splitNl_append htime, splitNl_append htzline,
      splitNl_append (by decide), splitNl_append (by decide), splitNl_noNl (by decide)]

/-- Witness for C7 at a concrete timestamp and timezone. -/
theorem c7_system_info_lines_witness :
    (lc "2024-01-01T00:00:00.000Z").all isoChar = true
    ∧ noNl (lc "UTC") = true
    ∧ containsSub (lc "Current date: ")
        (systemInfoText (lc "2024-01-01T00:00:00.000Z") (lc "UTC") .date) = true
    ∧ containsSub (lc "Timezone:")
        (systemInfoText (lc "2024-01-01T00:00:00.000Z") (lc "UTC") .date) = false
    ∧ splitNl (systemInfoText (lc "2024-01-01T00:00:00.000Z") (lc "UTC") .all) =
        [ lc "Current date: "
            ++ (lc "2024-01-01T00:00:00.000Z").takeWhile (fun c => !(c == 'T'))
        , lc "Current time: " ++ lc "2024-01-01T00:00:00.000Z"
        , lc "Timezone: " ++ lc "UTC"
        , lc "Server version: 0.1.0"
        , []
        , guidance ] := by
  have h := c7_system_info_lines (lc "2024-01-01T00:00:00.000Z") (lc "UTC")
    (by decide) (by decide)
  exact ⟨by decide, by decide, h.1, h.2.1, h.2.2⟩

/-! Helper lemmas for the JSON round trip (claim C6). -/

/-- Digits are not JSON whitespace. -/
theorem not_ws_of_digit {c : Char} (h : c.isDigit = true) : isWsC c = false := by
  rcases eq_or_ne c ' ' with rfl | h1
  · exact absurd h (by decide)
  rcases eq_or_ne c '\n' with rfl | h2
  · exact absurd h (by decide)
  rcases eq_or_ne c '\t' with rfl | h3
  · exact absurd h (by decide)
  rcases eq_or_ne c '\r' with rfl | h4
  · exact absurd h (by decide)
  simp [isWsC, h1, h2, h3, h4]

/-- Digits are distinct from every structural JSON character. -/
theorem digit_ne_structural {c : Char} (h : c.isDigit = true) :
    c ≠ 'n' ∧ c ≠ 't' ∧ c ≠ 'f' ∧ c ≠ '"' ∧ c ≠ '-' ∧ c ≠ '[' ∧ c ≠ '{'
    ∧ c ≠ ']' ∧ c ≠ ',' ∧ c ≠ '}' := by
  refine ⟨?_, ?_, ?_, ?_, ?_, ?_, ?_, ?_, ?_, ?_⟩ <;>
    · intro e
      subst e
      exact absurd h (by decide)

/-- Character of a decimal digit below ten really is a digit. -/
theorem digitChar_isDigit {d : Nat} (h : d < 10) : (digitChar d).isDigit = true := by
  interval_cases d <;> decide

/-- Decoding a digit character recovers the digit. -/
theorem digitChar_val {d : Nat} (h : d < 10) : (digitChar d).toNat - 48 = d := by
  interval_cases d <;> decide

/-- Hexadecimal digit characters pass the hexadecimal test. -/
theorem hexDigit_isHex {d : Nat} (h : d < 16) : isHexC (hexDigit d) = true := by
  interval_cases d <;> decide

/-- Decoding a hexadecimal digit character recovers its value. -/
theorem hexDigit_val {d : Nat} (h : d < 16) : hexVal (hexDigit d) = d := by
  interval_cases d <;> decide

/-- The decimal rendering of a natural number is all digits. -/
theorem natDigits_all_digits (n : Nat) : (natDigits n).all (fun c => c.isDigit) = true := by
  induction n using Nat.strong_induction_on with
  | _ n ih =>
    rw [natDigits]
    split
    · simp [digitChar_isDigit ‹n < 10›]
    · rw [List.all_append]
      have h10 : ¬ n < 10 := by assumption
      have := ih (n / 10) (Nat.div_lt_self (by omega) (by omega))
      simp [this, digitChar_isDigit (Nat.mod_lt n (by omega))]

/-- The decimal rendering starts with a digit. -/
theorem natDigits_head (n : Nat) :
    ∃ c cs, natDigits n = c :: cs ∧ c.isDigit = true := by
  induction n using Nat.strong_induction_on with
  | _ n ih =>
    rw [natDigits]
    split
    · exact ⟨digitChar n, [], rfl, digitChar_isDigit ‹n < 10›⟩
    · have h10 : ¬ n < 10 := by assumption
      obtain ⟨c, cs, hc, hd⟩ := ih (n / 10) (Nat.div_lt_self (by omega) (by omega))
      exact ⟨c, cs ++ [digitChar (n % 10)], by rw [hc]; rfl, hd⟩

/-- The digit reader stops at a non-digit boundary. -/
theorem readDigits_stop {rest : List Char} (acc : Nat) (h : noLeadDigit rest = true) :
    readDigits acc rest = (acc, rest) := by
  cases rest with
  | nil => rfl
  | cons c r =>
    simp only [noLeadDigit, Bool.not_eq_true'] at h
    simp [readDigits, h]

/-- Reading the decimal rendering of `n` shifts the accumulator and adds
`n`. -/
theorem readDigits_append (n : Nat) : ∀ (acc : Nat) (rest : List Char),
    readDigits acc (natDigits n ++ rest)
      = readDigits (acc * 10 ^ (natDigits n).length + n) rest := by
  induction n using Nat.strong_induction_on with
  | _ n ih =>
    intro acc rest
    by_cases h : n < 10
    · rw [natDigits, dif_pos h]
      simp only [List.singleton_append, List.length_singleton, pow_one]
      rw [readDigits]
      simp [digitChar_isDigit h, digitChar_val h]
    · rw [natDigits, dif_neg h, List.append_assoc,
        ih (n / 10) (Nat.div_lt_self (by omega) (by omega)), List.singleton_append]
      rw [readDigits]
      simp only [digitChar_isDigit (Nat.mod_lt n (by omega)), if_true,
        digitChar_val (Nat.mod_lt n (by omega))]
      congr 1
      rw [List.length_append, List.length_singleton, pow_add, pow_one]
      have hdm : 10 * (n / 10) + n % 10 = n := Nat.div_add_mod n 10
      calc (acc * 10 ^ (natDigits (n / 10)).length + n / 10) * 10 + n % 10
          = acc * (10 ^ (natDigits (n / 10)).length * 10) + (10 * (n / 10) + n % 10) := by ring
        _ = acc * (10 ^ (natDigits (n / 10)).length * 10) + n := by rw [hdm]

/-- Reading the full decimal rendering of `n` from a clean boundary yields
`n`. -/
theorem readDigits_natDigits (n : Nat) {rest : List Char} (h : noLeadDigit rest = true) :
    readDigits 0 (natDigits n ++ rest) = (n, rest) := by
  rw [readDigits_append]
  simpa using readDigits_stop n h

/-- Skipping whitespace leaves a non-whitespace head alone. -/
theorem skipWs_not_ws {c : Char} (h : isWsC c = false) (t : List Char) :
    skipWs (c :: t) = c :: t := by
  simp [skipWs, h]

/-- Skipping whitespace removes a leading all-whitespace block. -/
theorem skipWs_ws_append {w : List Char} (h : allWs w = true) (t : List Char) :
    skipWs (w ++ t) = skipWs t := by
  induction w with
  | nil => rfl
  | cons c r ih =>
    simp only [allWs, List.all_cons, Bool.and_eq_true] at h
    simp only [List.cons_append, skipWs, h.1, if_true]
    exact ih h.2

/-- Indentation is whitespace. -/
theorem allWs_indent (i : Nat) : allWs (indent i) = true := by
  induction i with
  | zero => rfl
  | succ k _ => simp [indent, allWs, List.replicate, isWsC]

/-- A whitespace block never starts with a digit. -/
theorem noLeadDigit_ws_append {w : List Char} (h : allWs w = true) {t : List Char}
    (ht : noLeadDigit t = true) : noLeadDigit (w ++ t) = true := by
  cases w with
  | nil => exact ht
  | cons c r =>
    simp only [allWs, List.all_cons, Bool.and_eq_true] at h
    simp only [List.cons_append, noLeadDigit, Bool.not_eq_true']
    cases hd : c.isDigit with
    | false => rfl
    | true => rw [not_ws_of_digit hd] at h; exact absurd h.1 (by simp)

/-- The first character of a compact rendering: never whitespace, never a
closing bracket, comma or colon. -/
theorem compactV_head (x : Json) :
    ∃ c t, compactV x = c :: t ∧ isWsC c = false ∧ c ≠ ']' ∧ c ≠ '}' := by
  cases x with
  | null => refine ⟨'n', _, rfl, ?_, ?_, ?_⟩ <;> decide
  | jbool b =>
    cases b
    case true => refine ⟨'t', _, rfl, ?_, ?_, ?_⟩ <;> decide
    case false => refine ⟨'f', _, rfl, ?_, ?_, ?_⟩ <;> decide
  | jnum n =>
    unfold compactV intDigits
    by_cases hn : n < 0
    · rw [if_pos hn]
      refine ⟨'-', _, rfl, ?_, ?_, ?_⟩ <;> decide
    · rw [if_neg hn]
      obtain ⟨c, cs, hc, hd⟩ := natDigits_head n.toNat
      have hne := digit_ne_structural hd
      exact ⟨c, cs, hc, not_ws_of_digit hd, hne.2.2.2.2.2.2.2.1, hne.2.2.2.2.2.2.2.2.2⟩
  | jstr s => refine ⟨'"', _, rfl, ?_, ?_, ?_⟩ <;> decide
  | jarr xs => refine ⟨'[', _, rfl, ?_, ?_, ?_⟩ <;> decide
  | jobj kvs => refine ⟨'{', _, rfl, ?_, ?_, ?_⟩ <;> decide

/-- The first character of a pretty rendering: same classification. -/
theorem prettyV_head (i : Nat) (x : Json) :
    ∃ c t, prettyV i x = c :: t ∧ isWsC c = false ∧ c ≠ ']' ∧ c ≠ '}' := by
  cases x with
  | null => refine ⟨'n', _, rfl, ?_, ?_, ?_⟩ <;> decide
  | jbool b =>
    cases b
    case true => refine ⟨'t', _, rfl, ?_, ?_, ?_⟩ <;> decide
    case false => refine ⟨'f', _, rfl, ?_, ?_, ?_⟩ <;> decide
  | jnum n =>
    unfold prettyV intDigits
    by_cases hn : n < 0
    · rw [if_pos hn]
      refine ⟨'-', _, rfl, ?_, ?_, ?_⟩ <;> decide
    · rw [if_neg hn]
      obtain ⟨c, cs, hc, hd⟩ := natDigits_head n.toNat
      have hne := digit_ne_structural hd
      exact ⟨c, cs, hc, not_ws_of_digit hd, hne.2.2.2.2.2.2.2.1, hne.2.2.2.2.2.2.2.2.2⟩
  | jstr s => refine ⟨'"', _, rfl, ?_, ?_, ?_⟩ <;> decide
  | jarr xs =>
    cases xs
    case nil => refine ⟨'[', _, rfl, ?_, ?_, ?_⟩ <;> decide
    case cons => refine ⟨'[', _, rfl, ?_, ?_, ?_⟩ <;> decide
  | jobj kvs =>
    cases kvs
    case nil => refine ⟨'{', _, rfl, ?_, ?_, ?_⟩ <;> decide
    case cons => refine ⟨'{', _, rfl, ?_, ?_, ?_⟩ <;> decide

/-- Reading back an escaped string body recovers the original characters. -/
theorem readString_escape (s : List Char) : ∀ rest : List Char,
    readString (escape s ++ '"' :: rest) = some (s, rest) := by
  induction s with
  | nil =>
    intro rest
    show readString ([] ++ '"' :: rest) = some ([], rest)
    rw [List.nil_append, readString.eq_def]
    simp
  | cons c cs ih =>
    intro rest
    have hesc : escape (c :: cs) ++ '"' :: rest
        = escapeChar c ++ (escape cs ++ '"' :: rest) := by
      simp [escape]
    rw [hesc]
    by_cases h1 : c = '"'
    · subst h1
      rw [show escapeChar '"' = ['\\', '"'] from rfl]
      simp only [List.cons_append, List.nil_append]
      rw [readString.eq_def]
      simp [ih]
    by_cases h2 : c = '\\'
    · subst h2
      rw [show escapeChar '\\' = ['\\', '\\'] from rfl]
      simp only [List.cons_append, List.nil_append]
      rw [readString.eq_def]
      simp [ih]
    by_cases h3 : c = '\x08'
    · subst h3
      rw [show escapeChar '\x08' = ['\\', 'b'] from rfl]
      simp only [List.cons_append, List.nil_append]
      rw [readString.eq_def]
      simp [ih]
    by_cases h4 : c = '\t'
    · subst h4
      rw [show escapeChar '\t' = ['\\', 't'] from rfl]
      simp only [List.cons_append, List.nil_append]
      rw [readString.eq_def]
      simp [ih]
    by_cases h5 : c = '\n'
    · subst h5
      rw [show escapeChar '\n' = ['\\', 'n'] from rfl]
      simp only [List.cons_append, List.nil_append]
      rw [readString.eq_def]
      simp [ih]
    by_cases h6 : c = '\x0C'
    · subst h6
      rw [show escapeChar '\x0C' = ['\\', 'f'] from rfl]
      simp only [List.cons_append, List.nil_append]
      rw [readString.eq_def]
      simp [ih]
    by_cases h7 : c = '\r'
    · subst h7
      rw [show escapeChar '\r' = ['\\', 'r'] from rfl]
      simp only [List.cons_append, List.nil_append]
      rw [readString.eq_def]
      simp [ih]
    by_cases h8 : c.toNat < 32
    · rw [escapeChar, if_neg h1, if_neg h2, if_neg h3, if_neg h4, if_neg h5, if_neg h6,
        if_neg h7, if_pos h8]
      have hhi : c.toNat / 16 < 16 := by omega
      have hlo : c.toNat % 16 < 16 := by omega
      simp only [List.cons_append, List.nil_append]
      rw [readString.eq_def]
      simp only [if_neg (by decide : ¬('\\' = '"')), if_pos (rfl : '\\' = '\\'),
        if_neg (by decide : ¬('u' = '"')), if_neg (by decide : ¬('u' = '\\')),
        if_neg (by decide : ¬('u' = '/')), if_neg (by decide : ¬('u' = 'b')),
        if_neg (by decide : ¬('u' = 'f')), if_neg (by decide : ¬('u' = 'n')),
        if_neg (by decide : ¬('u' = 'r')), if_neg (by decide : ¬('u' = 't')),
        if_pos (rfl : 'u' = 'u')]
      have h0hex : isHexC '0' = true := by decide
      rw [if_pos (by simp [h0hex, hexDigit_isHex hhi, hexDigit_isHex hlo] : (isHexC '0'
        && isHexC '0' && isHexC (hexDigit (c.toNat / 16))
        && isHexC (hexDigit (c.toNat % 16))) = true)]
      rw [ih rest]
      have hv : ((hexVal '0' * 16 + hexVal '0') * 16 + hexVal (hexDigit (c.toNat / 16))) * 16
          + hexVal (hexDigit (c.toNat % 16)) = c.toNat := by
        rw [hexDigit_val hhi, hexDigit_val hlo]
        have h0 : hexVal '0' = 0 := by decide
        rw [h0]
        omega
      simp only [Option.map_some']
      rw [hv, Char.ofNat_toNat]
      simp
    · rw [escapeChar, if_neg h1, if_neg h2, if_neg h3, if_neg h4, if_neg h5, if_neg h6,
        if_neg h7, if_neg h8]
      simp only [List.cons_append, List.nil_append]
      rw [readString.eq_def]
      simp only [if_neg h1, if_neg h2]
      rw [ih rest]
      rfl

/-- Sizes are positive (fuel is never zero when a value remains). -/
theorem sizeJ_pos (x : Json) : 1 ≤ sizeJ x := by
  cases x <;> simp [sizeJ]

/-- Array tails have positive size. -/
theorem sizeA_pos (xs : Jarr) : 1 ≤ sizeA xs := by
  cases xs <;> simp [sizeA]

/-- Object tails have positive size. -/
theorem sizeO_pos (kvs : Jobj) : 1 ≤ sizeO kvs := by
  cases kvs <;> simp [sizeO]

/-- A non-digit head gives a clean number boundary. -/
theorem noLeadDigit_cons {c : Char} (h : c.isDigit = false) (t : List Char) :
    noLeadDigit (c :: t) = true := by
  simp [noLeadDigit, h]

/-- Entering the parser at a digit produces the number token read by
`readDigits`. -/
theorem parseValue_digit_entry (f : Nat) {c : Char} (hd : c.isDigit = true) (r : List Char) :
    parseValue (f + 1) (c :: r)
      = some (.jnum ((readDigits 0 (c :: r)).1 : Int), (readDigits 0 (c :: r)).2) := by
  have hne := digit_ne_structural hd
  simp only [parseValue]
  rw [skipWs_not_ws (not_ws_of_digit hd)]
  simp only [if_neg hne.1, if_neg hne.2.1, if_neg hne.2.2.1, if_neg hne.2.2.2.1,
    if_neg hne.2.2.2.2.1, if_neg hne.2.2.2.2.2.1, if_neg hne.2.2.2.2.2.2.1, if_pos hd]

/-- Parsing the rendering of an integer (identical in both modes). -/
theorem parseValue_intDigits (n : Int) (f : Nat) {rest : List Char}
    (hrest : noLeadDigit rest = true) :
    parseValue (f + 1) (intDigits n ++ rest) = some (.jnum n, rest) := by
  by_cases hn : n < 0
  · rw [intDigits, if_pos hn]
    obtain ⟨c, cs, hc, hd⟩ := natDigits_head (-n).toNat
    simp only [parseValue, List.cons_append]
    rw [skipWs_not_ws (by decide)]
    simp only [if_neg (by decide : ¬('-' = 'n')), if_neg (by decide : ¬('-' = 't')),
      if_neg (by decide : ¬('-' = 'f')), if_neg (by decide : ¬('-' = '"')),
      if_pos (rfl : '-' = '-')]
    rw [hc]
    simp only [List.cons_append, if_pos hd]
    rw [← List.cons_append, ← hc, readDigits_natDigits _ hrest]
    have hcast : (-(((-n).toNat : Nat) : Int)) = n := by omega
    rw [hcast]
    simp
  · rw [intDigits, if_neg hn]
    obtain ⟨c, cs, hc, hd⟩ := natDigits_head n.toNat
    rw [hc, List.cons_append, parseValue_digit_entry f hd, ← List.cons_append, ← hc,
      readDigits_natDigits _ hrest]
    have hcast : ((n.toNat : Nat) : Int) = n := by omega
    rw [hcast]

mutual
theorem parse_compact_val (x : Json) : ∀ (f : Nat) (rest : List Char),
    sizeJ x ≤ f → noLeadDigit rest = true →
    parseValue f (compactV x ++ rest) = some (x, rest) := by
  intro f rest hf hrest
  obtain ⟨f1, rfl⟩ : ∃ f1, f = f1 + 1 := ⟨f - 1, by have := sizeJ_pos x; omega⟩
  cases x with
  | null =>
    simp only [compactV, parseValue, List.cons_append, List.nil_append]
    rw [skipWs_not_ws (by decide)]
    simp [isPrefixL]
  | jbool b =>
    cases b with
    | true =>
      simp only [compactV, parseValue, List.cons_append, List.nil_append]
      rw [skipWs_not_ws (by decide)]
      simp [isPrefixL]
    | false =>
      simp only [compactV, parseValue, List.cons_append, List.nil_append]
      rw [skipWs_not_ws (by decide)]
      simp [isPrefixL]
  | jnum n => exact parseValue_intDigits n f1 hrest
  | jstr s =>
    simp only [compactV, List.cons_append, List.append_assoc, List.singleton_append,
      List.nil_append]
    simp only [parseValue]
    rw [skipWs_not_ws (by decide)]
    simp only [if_neg (by decide : ¬('"' = 'n')), if_neg (by decide : ¬('"' = 't')),
      if_neg (by decide : ¬('"' = 'f')), if_pos (rfl : '"' = '"')]
    rw [readString_escape s rest]
    simp
  | jarr xs =>
    simp only [compactV, List.cons_append, List.append_assoc, List.singleton_append,
      List.nil_append]
    simp only [parseValue]
    rw [skipWs_not_ws (by decide)]
    simp only [if_neg (by decide : ¬('[' = 'n')), if_neg (by decide : ¬('[' = 't')),
      if_neg (by decide : ¬('[' = 'f')), if_neg (by decide : ¬('[' = '"')),
      if_neg (by decide : ¬('[' = '-')), if_pos (rfl : '[' = '[')]
    rw [parse_compact_arr xs f1 rest (by simp [sizeJ] at hf; omega)]
    simp
  | jobj kvs =>
    simp only [compactV, List.cons_append, List.append_assoc, List.singleton_append,
      List.nil_append]
    simp only [parseValue]
    rw [skipWs_not_ws (by decide)]
    simp only [if_neg (by decide : ¬('{' = 'n')), if_neg (by decide : ¬('{' = 't')),
      if_neg (by decide : ¬('{' = 'f')), if_neg (by decide : ¬('{' = '"')),
      if_neg (by decide : ¬('{' = '-')), if_neg (by decide : ¬('{' = '[')),
      if_pos (rfl : '{' = '{')]
    rw [parse_compact_obj kvs f1 rest (by simp [sizeJ] at hf; omega)]
    simp

theorem parse_compact_arr (xs : Jarr) : ∀ (f : Nat) (rest : List Char),
    sizeA xs ≤ f →
    parseArrItems f (compactItems xs ++ ']' :: rest) = some (xs, rest) := by
  intro f rest hf
  obtain ⟨f1, rfl⟩ : ∃ f1, f = f1 + 1 := ⟨f - 1, by have := sizeA_pos xs; omega⟩
  cases xs with
  | nil =>
    simp only [compactItems, List.nil_append, parseArrItems]
    rw [skipWs_not_ws (by decide)]
    simp
  | cons x xs =>
    obtain ⟨c, t, hct, hws, hbr, _⟩ := compactV_head x
    cases xs with
    | nil =>
      have hval : parseValue f1 (compactV x ++ ']' :: rest) = some (x, ']' :: rest) :=
        parse_compact_val x f1 (']' :: rest)
          (by simp [sizeA] at hf; omega) (noLeadDigit_cons (by decide) _)
      simp only [compactItems, parseArrItems]
      rw [hct]
      simp only [List.cons_append]
      rw [skipWs_not_ws hws]
      simp only [if_neg hbr]
      rw [← List.cons_append, ← hct, hval]
      simp [skipWs_not_ws (by decide : isWsC ']' = false), if_neg (by decide : ¬(']' = ','))]
    | cons y ys =>
      have hstep : compactItems (.cons x (.cons y ys)) ++ ']' :: rest
          = compactV x ++ ',' :: (compactItems (.cons y ys) ++ ']' :: rest) := by
        simp [compactItems]
      rw [hstep]
      have hval : parseValue f1 (compactV x ++ ',' :: (compactItems (.cons y ys) ++ ']' :: rest))
          = some (x, ',' :: (compactItems (.cons y ys) ++ ']' :: rest)) :=
        parse_compact_val x f1 _
          (by simp [sizeA] at hf ⊢; omega) (noLeadDigit_cons (by decide) _)
      simp only [parseArrItems]
      rw [hct]
      simp only [List.cons_append]
      rw [skipWs_not_ws hws]
      simp only [if_neg hbr]
      rw [← List.cons_append, ← hct, hval]
      simp only [skipWs_not_ws (by decide : isWsC ',' = false), if_pos (rfl : ',' = ',')]
      rw [parse_compact_arr (.cons y ys) f1 rest (by simp [sizeA] at hf ⊢; omega)]
      simp

theorem parse_compact_obj (kvs : Jobj) : ∀ (f : Nat) (rest : List Char),
    sizeO kvs ≤ f →
    parseObjItems f (compactFields kvs ++ '}' :: rest) = some (kvs, rest) := by
  intro f rest hf
  obtain ⟨f1, rfl⟩ : ∃ f1, f = f1 + 1 := ⟨f - 1, by have := sizeO_pos kvs; omega⟩
  cases kvs with
  | nil =>
    simp only [compactFields, List.nil_append, parseObjItems]
    rw [skipWs_not_ws (by decide)]
    simp
  | cons k v kvs =>
    cases kvs with
    | nil =>
      have hsplit : compactFields (.cons k v .nil) ++ '}' :: rest
          = '"' :: (escape k ++ '"' :: (':' :: (compactV v ++ '}' :: rest))) := by
        simp [compactFields]
      rw [hsplit]
      simp only [parseObjItems]
      rw [skipWs_not_ws (by decide)]
      simp only [if_neg (by decide : ¬('"' = '}')), if_pos (rfl : '"' = '"')]
      rw [readString_escape k]
      simp only [skipWs_not_ws (by decide : isWsC ':' = false), if_pos (rfl : ':' = ':')]
      rw [parse_compact_val v f1 ('}' :: rest)
        (by simp [sizeO] at hf; omega) (noLeadDigit_cons (by decide) _)]
      simp [skipWs_not_ws (by decide : isWsC '}' = false), if_neg (by decide : ¬('}' = ','))]
    | cons k2 v2 kvs =>
      have hsplit : compactFields (.cons k v (.cons k2 v2 kvs)) ++ '}' :: rest
          = '"' :: (escape k ++ '"' :: (':' :: (compactV v
              ++ ',' :: (compactFields (.cons k2 v2 kvs) ++ '}' :: rest)))) := by
        simp [compactFields]
      rw [hsplit]
      simp only [parseObjItems]
      rw [skipWs_not_ws (by decide)]
      simp only [if_neg (by decide : ¬('"' = '}')), if_pos (rfl : '"' = '"')]
      rw [readString_escape k]
      simp only [skipWs_not_ws (by decide : isWsC ':' = false), if_pos (rfl : ':' = ':')]
      rw [parse_compact_val v f1 _
        (by simp [sizeO] at hf ⊢; omega) (noLeadDigit_cons (by decide) _)]
      simp only [skipWs_not_ws (by decide : isWsC ',' = false), if_pos (rfl : ',' = ',')]
      rw [parse_compact_obj (.cons k2 v2 kvs) f1 rest (by simp [sizeO] at hf ⊢; omega)]
      simp
end

/-- The value parser ignores leading whitespace. -/
theorem parseValue_ws {w : List Char} (h : allWs w = true) (f : Nat) (t : List Char) :
    parseValue f (w ++ t) = parseValue f t := by
  cases f with
  | zero => rfl
  | succ f1 => simp only [parseValue, skipWs_ws_append h]

/-- The array-items parser ignores leading whitespace. -/
theorem parseArrItems_ws {w : List Char} (h : allWs w = true) (f : Nat) (t : List Char) :
    parseArrItems f (w ++ t) = parseArrItems f t := by
  cases f with
  | zero => rfl
  | succ f1 => simp only [parseArrItems, skipWs_ws_append h]

/-- The object-fields parser ignores leading whitespace. -/
theorem parseObjItems_ws {w : List Char} (h : allWs w = true) (f : Nat) (t : List Char) :
    parseObjItems f (w ++ t) = parseObjItems f t := by
  cases f with
  | zero => rfl
  | succ f1 => simp only [parseObjItems, skipWs_ws_append h]

/-- A newline followed by indentation is all whitespace. -/
theorem allWs_nl_indent (i : Nat) : allWs ('\n' :: indent i) = true := by
  simp only [allWs, List.all_cons, Bool.and_eq_true]
  exact ⟨by decide, allWs_indent i⟩

mutual
theorem parse_pretty_val (x : Json) : ∀ (i f : Nat) (rest : List Char),
    sizeJ x ≤ f → noLeadDigit rest = true →
    parseValue f (prettyV i x ++ rest) = some (x, rest) := by
  intro i f rest hf hrest
  obtain ⟨f1, rfl⟩ : ∃ f1, f = f1 + 1 := ⟨f - 1, by have := sizeJ_pos x; omega⟩
  cases x with
  | null =>
    simp only [prettyV, parseValue, List.cons_append, List.nil_append]
    rw [skipWs_not_ws (by decide)]
    simp [isPrefixL]
  | jbool b =>
    cases b with
    | true =>
      simp only [prettyV, parseValue, List.cons_append, List.nil_append]
      rw [skipWs_not_ws (by decide)]
      simp [isPrefixL]
    | false =>
      simp only [prettyV, parseValue, List.cons_append, List.nil_append]
      rw [skipWs_not_ws (by decide)]
      simp [isPrefixL]
  | jnum n => exact parseValue_intDigits n f1 hrest
  | jstr s =>
    simp only [prettyV, List.cons_append, List.append_assoc, List.singleton_append,
      List.nil_append]
    simp only [parseValue]
    rw [skipWs_not_ws (by decide)]
    simp only [if_neg (by decide : ¬('"' = 'n')), if_neg (by decide : ¬('"' = 't')),
      if_neg (by decide : ¬('"' = 'f')), if_pos (rfl : '"' = '"')]
    rw [readString_escape s rest]
    simp
  | jarr xs =>
    cases xs with
    | nil =>
      have harr : parseArrItems f1 (']' :: rest) = some (.nil, rest) := by
        have h := parse_pretty_arr .nil i f1 [] rest (by simp [sizeJ, sizeA] at hf ⊢; omega) rfl
        simpa [prettyItems] using h
      simp only [prettyV, parseValue, List.cons_append, List.nil_append]
      rw [skipWs_not_ws (by decide)]
      simp only [if_neg (by decide : ¬('[' = 'n')), if_neg (by decide : ¬('[' = 't')),
        if_neg (by decide : ¬('[' = 'f')), if_neg (by decide : ¬('[' = '"')),
        if_neg (by decide : ¬('[' = '-')), if_pos (rfl : '[' = '[')]
      rw [harr]
      simp
    | cons y ys =>
      have hsplit : prettyV i (.jarr (.cons y ys)) ++ rest
          = '[' :: ('\n' :: (prettyItems (i + 2) (.cons y ys)
              ++ (('\n' :: indent i) ++ ']' :: rest))) := by
        simp [prettyV, List.append_assoc]
      rw [hsplit]
      simp only [parseValue]
      rw [skipWs_not_ws (by decide)]
      simp only [if_neg (by decide : ¬('[' = 'n')), if_neg (by decide : ¬('[' = 't')),
        if_neg (by decide : ¬('[' = 'f')), if_neg (by decide : ¬('[' = '"')),
        if_neg (by decide : ¬('[' = '-')), if_pos (rfl : '[' = '[')]
      rw [show ('\n' :: (prettyItems (i + 2) (.cons y ys) ++ (('\n' :: indent i) ++ ']' :: rest)))
          = ['\n'] ++ (prettyItems (i + 2) (.cons y ys) ++ (('\n' :: indent i) ++ ']' :: rest))
        from rfl]
      rw [parseArrItems_ws (by decide) f1]
      rw [parse_pretty_arr (.cons y ys) (i + 2) f1 ('\n' :: indent i) rest
        (by simp [sizeJ] at hf; omega)
        (allWs_nl_indent i)]
      simp
  | jobj kvs =>
    cases kvs with
    | nil =>
      have hobj : parseObjItems f1 ('}' :: rest) = some (.nil, rest) := by
        have h := parse_pretty_obj .nil i f1 [] rest (by simp [sizeJ, sizeO] at hf ⊢; omega) rfl
        simpa [prettyFields] using h
      simp only [prettyV, parseValue, List.cons_append, List.nil_append]
      rw [skipWs_not_ws (by decide)]
      simp only [if_neg (by decide : ¬('{' = 'n')), if_neg (by decide : ¬('{' = 't')),
        if_neg (by decide : ¬('{' = 'f')), if_neg (by decide : ¬('{' = '"')),
        if_neg (by decide : ¬('{' = '-')), if_neg (by decide : ¬('{' = '[')),
        if_pos (rfl : '{' = '{')]
      rw [hobj]
      simp
    | cons k v kvs =>
      have hsplit : prettyV i (.jobj (.cons k v kvs)) ++ rest
          = '{' :: ('\n' :: (prettyFields (i + 2) (.cons k v kvs)
              ++ (('\n' :: indent i) ++ '}' :: rest))) := by
        simp [prettyV, List.append_assoc]
      rw [hsplit]
      simp only [parseValue]
      rw [skipWs_not_ws (by decide)]
      simp only [if_neg (by decide : ¬('{' = 'n')), if_neg (by decide : ¬('{' = 't')),
        if_neg (by decide : ¬('{' = 'f')), if_neg (by decide : ¬('{' = '"')),
        if_neg (by decide : ¬('{' = '-')), if_neg (by decide : ¬('{' = '[')),
        if_pos (rfl : '{' = '{')]
      rw [show ('\n' :: (prettyFields (i + 2) (.cons k v kvs)
            ++ (('\n' :: indent i) ++ '}' :: rest)))
          = ['\n'] ++ (prettyFields (i + 2) (.cons k v kvs)
              ++ (('\n' :: indent i) ++ '}' :: rest))
        from rfl]
      rw [parseObjItems_ws (by decide) f1]
      rw [parse_pretty_obj (.cons k v kvs) (i + 2) f1 ('\n' :: indent i) rest
        (by simp [sizeJ] at hf; omega)
        (allWs_nl_indent i)]
      simp

theorem parse_pretty_arr (xs : Jarr) : ∀ (i f : Nat) (w rest : List Char),
    sizeA xs ≤ f → allWs w = true →
    parseArrItems f (prettyItems i xs ++ (w ++ ']' :: rest)) = some (xs, rest) := by
  intro i f w rest hf hw
  obtain ⟨f1, rfl⟩ : ∃ f1, f = f1 + 1 := ⟨f - 1, by have := sizeA_pos xs; omega⟩
  cases xs with
  | nil =>
    simp only [prettyItems, List.nil_append]
    rw [parseArrItems_ws hw]
    simp only [parseArrItems]
    rw [skipWs_not_ws (by decide)]
    simp
  | cons x xs =>
    obtain ⟨c, t, hct, hws, hbr, _⟩ := prettyV_head i x
    cases xs with
    | nil =>
      have hsplit : prettyItems i (.cons x .nil) ++ (w ++ ']' :: rest)
          = indent i ++ (prettyV i x ++ (w ++ ']' :: rest)) := by
        simp [prettyItems, List.append_assoc]
      rw [hsplit, parseArrItems_ws (allWs_indent i)]
      have hval : parseValue f1 (prettyV i x ++ (w ++ ']' :: rest))
          = some (x, w ++ ']' :: rest) :=
        parse_pretty_val x i f1 _ (by simp [sizeA] at hf; omega)
          (noLeadDigit_ws_append hw (noLeadDigit_cons (by decide) _))
      simp only [parseArrItems]
      rw [hct]
      simp only [List.cons_append]
      rw [skipWs_not_ws hws]
      simp only [if_neg hbr]
      rw [← List.cons_append, ← hct, hval]
      simp only [skipWs_ws_append hw, skipWs_not_ws (by decide : isWsC ']' = false)]
      simp [if_neg (by decide : ¬(']' = ','))]
    | cons y ys =>
      have hsplit : prettyItems i (.cons x (.cons y ys)) ++ (w ++ ']' :: rest)
          = indent i ++ (prettyV i x ++ (',' :: ('\n'
              :: (prettyItems i (.cons y ys) ++ (w ++ ']' :: rest))))) := by
        simp [prettyItems, List.append_assoc]
      rw [hsplit, parseArrItems_ws (allWs_indent i)]
      have hval : parseValue f1 (prettyV i x ++ (',' :: ('\n'
            :: (prettyItems i (.cons y ys) ++ (w ++ ']' :: rest)))))
          = some (x, ',' :: ('\n' :: (prettyItems i (.cons y ys) ++ (w ++ ']' :: rest)))) :=
        parse_pretty_val x i f1 _ (by simp [sizeA] at hf ⊢; omega)
          (noLeadDigit_cons (by decide) _)
      simp only [parseArrItems]
      rw [hct]
      simp only [List.cons_append]
      rw [skipWs_not_ws hws]
      simp only [if_neg hbr]
      rw [← List.cons_append, ← hct, hval]
      simp only [skipWs_not_ws (by decide : isWsC ',' = false), if_pos (rfl : ',' = ',')]
      rw [show ('\n' :: (prettyItems i (.cons y ys) ++ (w ++ ']' :: rest)))
          = ['\n'] ++ (prettyItems i (.cons y ys) ++ (w ++ ']' :: rest)) from rfl]
      rw [parseArrItems_ws (by decide) f1]
      rw [parse_pretty_arr (.cons y ys) i f1 w rest (by simp [sizeA] at hf ⊢; omega) hw]
      simp

theorem parse_pretty_obj (kvs : Jobj) : ∀ (i f : Nat) (w rest : List Char),
    sizeO kvs ≤ f → allWs w = true →
    parseObjItems f (prettyFields i kvs ++ (w ++ '}' :: rest)) = some (kvs, rest) := by
  intro i f w rest hf hw
  obtain ⟨f1, rfl⟩ : ∃ f1, f = f1 + 1 := ⟨f - 1, by have := sizeO_pos kvs; omega⟩
  cases kvs with
  | nil =>
    simp only [prettyFields, List.nil_append]
    rw [parseObjItems_ws hw]
    simp only [parseObjItems]
    rw [skipWs_not_ws (by decide)]
    simp
  | cons k v kvs =>
    cases kvs with
    | nil =>
      have hsplit : prettyFields i (.cons k v .nil) ++ (w ++ '}' :: rest)
          = indent i ++ ('"' :: (escape k ++ '"' :: (':' :: (' '
              :: (prettyV i v ++ (w ++ '}' :: rest)))))) := by
        simp [prettyFields, List.append_assoc]
      rw [hsplit, parseObjItems_ws (allWs_indent i)]
      simp only [parseObjItems]
      rw [skipWs_not_ws (by decide)]
      simp only [if_neg (by decide : ¬('"' = '}')), if_pos (rfl : '"' = '"')]
      rw [readString_escape k]
      simp only [skipWs_not_ws (by decide : isWsC ':' = false), if_pos (rfl : ':' = ':')]
      rw [show (' ' :: (prettyV i v ++ (w ++ '}' :: rest)))
          = [' '] ++ (prettyV i v ++ (w ++ '}' :: rest)) from rfl]
      rw [parseValue_ws (by decide) f1]
      rw [parse_pretty_val v i f1 _ (by simp [sizeO] at hf; omega)
        (noLeadDigit_ws_append hw (noLeadDigit_cons (by decide) _))]
      simp only [skipWs_ws_append hw, skipWs_not_ws (by decide : isWsC '}' = false)]
      simp [if_neg (by decide : ¬('}' = ','))]
    | cons k2 v2 kvs =>
      have hsplit : prettyFields i (.cons k v (.cons k2 v2 kvs)) ++ (w ++ '}' :: rest)
          = indent i ++ ('"' :: (escape k ++ '"' :: (':' :: (' '
              :: (prettyV i v ++ (',' :: ('\n' :: (prettyFields i (.cons k2 v2 kvs)
                ++ (w ++ '}' :: rest))))))))) := by
        simp [prettyFields, List.append_assoc]
      rw [hsplit, parseObjItems_ws (allWs_indent i)]
      simp only [parseObjItems]
      rw [skipWs_not_ws (by decide)]
      simp only [if_neg (by decide : ¬('"' = '}')), if_pos (rfl : '"' = '"')]
      rw [readString_escape k]
      simp only [skipWs_not_ws (by decide : isWsC ':' = false), if_pos (rfl : ':' = ':')]
      rw [show (' ' :: (prettyV i v ++ (',' :: ('\n' :: (prettyFields i (.cons k2 v2 kvs)
            ++ (w ++ '}' :: rest))))))
          = [' '] ++ (prettyV i v ++ (',' :: ('\n' :: (prettyFields i (.cons k2 v2 kvs)
              ++ (w ++ '}' :: rest))))) from rfl]
      rw [parseValue_ws (by decide) f1]
      rw [parse_pretty_val v i f1 _ (by simp [sizeO] at hf ⊢; omega)
        (noLeadDigit_cons (by decide) _)]
      simp only [skipWs_not_ws (by decide : isWsC ',' = false), if_pos (rfl : ',' = ',')]
      rw [show ('\n' :: (prettyFields i (.cons k2 v2 kvs) ++ (w ++ '}' :: rest)))
          = ['\n'] ++ (prettyFields i (.cons k2 v2 kvs) ++ (w ++ '}' :: rest)) from rfl]
      rw [parseObjItems_ws (by decide) f1]
      rw [parse_pretty_obj (.cons k2 v2 kvs) i f1 w rest (by simp [sizeO] at hf ⊢; omega) hw]
      simp
end

/-- The decimal rendering is never empty. -/
theorem natDigits_length_pos (n : Nat) : 1 ≤ (natDigits n).length := by
  obtain ⟨c, cs, hc, _⟩ := natDigits_head n
  rw [hc]
  simp

mutual
theorem sizeJ_le_compact (x : Json) : sizeJ x ≤ (compactV x).length := by
  cases x with
  | null => decide
  | jbool b => cases b <;> decide
  | jnum n =>
    have h := natDigits_length_pos n.toNat
    have h2 := natDigits_length_pos (-n).toNat
    unfold compactV intDigits sizeJ
    split <;> simp <;> omega
  | jstr s => simp [compactV, sizeJ]
  | jarr xs =>
    have h := sizeA_le_compactItems xs
    simp only [compactV, sizeJ, List.length_cons, List.length_append,
      List.length_singleton, List.length_nil]
    omega
  | jobj kvs =>
    have h := sizeO_le_compactFields kvs
    simp only [compactV, sizeJ, List.length_cons, List.length_append,
      List.length_singleton, List.length_nil]
    omega

theorem sizeA_le_compactItems (xs : Jarr) : sizeA xs ≤ (compactItems xs).length + 1 := by
  cases xs with
  | nil => decide
  | cons x xs =>
    cases xs with
    | nil =>
      have h := sizeJ_le_compact x
      have hp := sizeJ_pos x
      simp only [compactItems, sizeA] at *
      omega
    | cons y ys =>
      have h := sizeJ_le_compact x
      have h2 := sizeA_le_compactItems (.cons y ys)
      simp only [compactItems, sizeA, List.length_append, List.length_cons] at *
      omega

theorem sizeO_le_compactFields (kvs : Jobj) : sizeO kvs ≤ (compactFields kvs).length + 1 := by
  cases kvs with
  | nil => decide
  | cons k v kvs =>
    cases kvs with
    | nil =>
      have h := sizeJ_le_compact v
      have hp := sizeJ_pos v
      simp only [compactFields, sizeO, List.length_append, List.length_cons,
        List.length_singleton, List.length_nil] at *
      omega
    | cons k2 v2 kvs =>
      have h := sizeJ_le_compact v
      have h2 := sizeO_le_compactFields (.cons k2 v2 kvs)
      simp only [compactFields, sizeO, List.length_append, List.length_cons,
        List.length_singleton, List.length_nil] at *
      omega
end

mutual
theorem sizeJ_le_pretty (x : Json) : ∀ i : Nat, sizeJ x ≤ (prettyV i x).length := by
  intro i
  cases x with
  | null => simp [prettyV, sizeJ]
  | jbool b => cases b <;> simp [prettyV, sizeJ]
  | jnum n =>
    have h := natDigits_length_pos n.toNat
    have h2 := natDigits_length_pos (-n).toNat
    unfold prettyV intDigits sizeJ
    split <;> simp <;> omega
  | jstr s => simp [prettyV, sizeJ]
  | jarr xs =>
    cases xs with
    | nil => simp [prettyV, sizeJ, sizeA]
    | cons y ys =>
      have h := sizeA_le_prettyItems (.cons y ys) (i + 2)
      simp only [prettyV, sizeJ, List.length_cons, List.length_append,
        List.length_singleton, List.length_nil] at *
      omega
  | jobj kvs =>
    cases kvs with
    | nil => simp [prettyV, sizeJ, sizeO]
    | cons k v kvs =>
      have h := sizeO_le_prettyFields (.cons k v kvs) (i + 2)
      simp only [prettyV, sizeJ, List.length_cons, List.length_append,
        List.length_singleton, List.length_nil] at *
      omega

theorem sizeA_le_prettyItems (xs : Jarr) : ∀ i : Nat,
    sizeA xs ≤ (prettyItems i xs).length + 1 := by
  intro i
  cases xs with
  | nil => simp [prettyItems, sizeA]
  | cons x xs =>
    cases xs with
    | nil =>
      have h := sizeJ_le_pretty x i
      have hp := sizeJ_pos x
      simp only [prettyItems, sizeA, List.length_append] at *
      omega
    | cons y ys =>
      have h := sizeJ_le_pretty x i
      have h2 := sizeA_le_prettyItems (.cons y ys) i
      simp only [prettyItems, sizeA, List.length_append, List.length_cons] at *
      omega

theorem sizeO_le_prettyFields (kvs : Jobj) : ∀ i : Nat,
    sizeO kvs ≤ (prettyFields i kvs).length + 1 := by
  intro i
  cases kvs with
  | nil => simp [prettyFields, sizeO]
  | cons k v kvs =>
    cases kvs with
    | nil =>
      have h := sizeJ_le_pretty v i
      have hp := sizeJ_pos v
      simp only [prettyFields, sizeO, List.length_append, List.length_cons,
        List.length_singleton, List.length_nil] at *
      omega
    | cons k2 v2 kvs =>
      have h := sizeJ_le_pretty v i
      have h2 := sizeO_le_prettyFields (.cons k2 v2 kvs) i
      simp only [prettyFields, sizeO, List.length_append, List.length_cons,
        List.length_singleton, List.length_nil] at *
      omega
end

/-- Hexadecimal digit characters are not whitespace. -/
theorem hexDigit_not_ws {d : Nat} (h : d < 16) : isWsC (hexDigit d) = false := by
  interval_cases d <;> decide

/-- Decimal digit strings contain no whitespace. -/
theorem natDigits_noWs (n : Nat) : ∀ c ∈ natDigits n, isWsC c = false := fun c hc =>
  not_ws_of_digit (List.all_eq_true.mp (natDigits_all_digits n) c hc)

/-- Integer renderings contain no whitespace. -/
theorem intDigits_noWs (n : Int) : ∀ c ∈ intDigits n, isWsC c = false := by
  intro c hc
  unfold intDigits at hc
  split at hc
  · rcases List.mem_cons.mp hc with rfl | hc
    · decide
    · exact natDigits_noWs _ c hc
  · exact natDigits_noWs _ c hc

/-- Escaping a whitespace-free string yields whitespace-free text. -/
theorem escape_noWs {s : List Char} (h : ∀ c ∈ s, isWsC c = false) :
    ∀ d ∈ escape s, isWsC d = false := by
  induction s with
  | nil => simp [escape]
  | cons c cs ih =>
    have hc : isWsC c = false := h c (List.mem_cons_self _ _)
    have hcs : ∀ x ∈ cs, isWsC x = false := fun x hx => h x (List.mem_cons_of_mem _ hx)
    intro d hd
    rw [show escape (c :: cs) = escapeChar c ++ escape cs by simp [escape]] at hd
    rcases List.mem_append.mp hd with hd | hd
    · by_cases h1 : c = '"'
      · subst h1; rcases (by simpa [escapeChar] using hd : d = '\\' ∨ d = '"') with rfl | rfl <;> decide
      by_cases h2 : c = '\\'
      · subst h2
        rcases (by simpa [escapeChar] using hd : d = '\\') with rfl
        decide
      by_cases h3 : c = '\x08'
      · subst h3; rcases (by simpa [escapeChar] using hd : d = '\\' ∨ d = 'b') with rfl | rfl <;> decide
      by_cases h4 : c = '\t'
      · exact absurd hc (by subst h4; decide)
      by_cases h5 : c = '\n'
      · exact absurd hc (by subst h5; decide)
      by_cases h6 : c = '\x0C'
      · subst h6; rcases (by simpa [escapeChar] using hd : d = '\\' ∨ d = 'f') with rfl | rfl <;> decide
      by_cases h7 : c = '\r'
      · exact absurd hc (by subst h7; decide)
      by_cases h8 : c.toNat < 32
      · rw [escapeChar, if_neg h1, if_neg h2, if_neg h3, if_neg h4, if_neg h5, if_neg h6,
          if_neg h7, if_pos h8] at hd
        have hhi : c.toNat / 16 < 16 := by omega
        have hlo : c.toNat % 16 < 16 := by omega
        rcases (by simpa using hd :
            d = '\\' ∨ d = 'u' ∨ d = '0' ∨ d = '0' ∨ d = hexDigit (c.toNat / 16)
              ∨ d = hexDigit (c.toNat % 16)) with rfl | rfl | rfl | rfl | rfl | rfl
        · decide
        · decide
        · decide
        · decide
        · exact hexDigit_not_ws hhi
        · exact hexDigit_not_ws hlo
      · rw [escapeChar, if_neg h1, if_neg h2, if_neg h3, if_neg h4, if_neg h5, if_neg h6,
          if_neg h7, if_neg h8] at hd
        rcases (by simpa using hd : d = c) with rfl
        exact hc
    · exact ih hcs d hd

mutual
theorem compactV_noWs (x : Json) : noWsJ x = true → ∀ c ∈ compactV x, isWsC c = false := by
  intro hx c hc
  cases x with
  | null =>
    rcases (by simpa [compactV] using hc :
        c = 'n' ∨ c = 'u' ∨ c = 'l' ∨ c = 'l') with rfl | rfl | rfl | rfl <;> decide
  | jbool b =>
    cases b with
    | true =>
      rcases (by simpa [compactV] using hc :
          c = 't' ∨ c = 'r' ∨ c = 'u' ∨ c = 'e') with rfl | rfl | rfl | rfl <;> decide
    | false =>
      rcases (by simpa [compactV] using hc :
          c = 'f' ∨ c = 'a' ∨ c = 'l' ∨ c = 's' ∨ c = 'e') with rfl | rfl | rfl | rfl | rfl
        <;> decide
  | jnum n => exact intDigits_noWs n c (by simpa [compactV] using hc)
  | jstr s =>
    have hs : ∀ d ∈ s, isWsC d = false := by
      intro d hd
      have := (by simpa [noWsJ] using hx : ¬s.any isWsC = true)
      rw [List.any_eq_true] at this
      push_neg at this
      simpa using this d hd
    rcases (by simpa [compactV] using hc : c = '"' ∨ c ∈ escape s ∨ c = '"')
      with rfl | hmem | rfl
    · decide
    · exact escape_noWs hs c hmem
    · decide
  | jarr xs =>
    rcases (by simpa [compactV] using hc : c = '[' ∨ c ∈ compactItems xs ∨ c = ']')
      with rfl | hmem | rfl
    · decide
    · exact compactItems_noWs xs (by simpa [noWsJ] using hx) c hmem
    · decide
  | jobj kvs =>
    rcases (by simpa [compactV] using hc : c = '{' ∨ c ∈ compactFields kvs ∨ c = '}')
      with rfl | hmem | rfl
    · decide
    · exact compactFields_noWs kvs (by simpa [noWsJ] using hx) c hmem
    · decide

theorem compactItems_noWs (xs : Jarr) :
    noWsA xs = true → ∀ c ∈ compactItems xs, isWsC c = false := by
  intro hxs c hc
  cases xs with
  | nil => simp [compactItems] at hc
  | cons x xs =>
    have hx : noWsJ x = true := by
      simp only [noWsA, Bool.and_eq_true] at hxs
      exact hxs.1
    have hrest : noWsA xs = true := by
      simp only [noWsA, Bool.and_eq_true] at hxs
      exact hxs.2
    cases xs with
    | nil => exact compactV_noWs x hx c (by simpa [compactItems] using hc)
    | cons y ys =>
      rcases (by simpa [compactItems] using hc :
          c ∈ compactV x ∨ c = ',' ∨ c ∈ compactItems (.cons y ys)) with hmem | rfl | hmem
      · exact compactV_noWs x hx c hmem
      · decide
      · exact compactItems_noWs (.cons y ys) hrest c hmem

theorem compactFields_noWs (kvs : Jobj) :
    noWsO kvs = true → ∀ c ∈ compactFields kvs, isWsC c = false := by
  intro hkvs c hc
  cases kvs with
  | nil => simp [compactFields] at hc
  | cons k v kvs =>
    have hparts : (¬k.any isWsC = true) ∧ noWsJ v = true ∧ noWsO kvs = true := by
      simp only [noWsO, Bool.and_eq_true, Bool.not_eq_true'] at hkvs
      exact ⟨by simp [hkvs.1.1], hkvs.1.2, hkvs.2⟩
    have hk : ∀ d ∈ k, isWsC d = false := by
      intro d hd
      have := hparts.1
      rw [List.any_eq_true] at this
      push_neg at this
      simpa using this d hd
    cases kvs with
    | nil =>
      rcases (by simpa [compactFields] using hc :
          c = '"' ∨ c ∈ escape k ∨ c = '"' ∨ c = ':' ∨ c ∈ compactV v)
        with rfl | hmem | rfl | rfl | hmem
      · decide
      · exact escape_noWs hk c hmem
      · decide
      · decide
      · exact compactV_noWs v hparts.2.1 c hmem
    | cons k2 v2 kvs =>
      rcases (by simpa [compactFields] using hc :
          c = '"' ∨ c ∈ escape k ∨ c = '"' ∨ c = ':' ∨ c ∈ compactV v ∨ c = ','
            ∨ c ∈ compactFields (.cons k2 v2 kvs))
        with rfl | hmem | rfl | rfl | hmem | rfl | hmem
      · decide
      · exact escape_noWs hk c hmem
      · decide
      · decide
      · exact compactV_noWs v hparts.2.1 c hmem
      · decide
      · exact compactFields_noWs (.cons k2 v2 kvs) hparts.2.2 c hmem
end

/-- Claim C6 — `formatResponse(x, "compact-json")` is the compact
serialization; `"json"` and an unspecified format both produce the 2-space
pretty serialization; parsing any of the outputs yields back exactly `x`;
and the compact output inserts no whitespace (none beyond the value's own
string contents: for values whose strings are whitespace-free the output has
no whitespace character at all). -/
theorem c6_formatResponse_roundtrip (x : Json) (m : Option OutputFormat) :
    parseJson (formatResponse x m) = some x
    ∧ formatResponse x none = formatResponse x (some .json)
    ∧ (noWsJ x = true → (formatResponse x (some .compactJson)).any isWsC = false) := by
  refine ⟨?_, rfl, ?_⟩
  · have hpretty : parseJson (prettyV 0 x) = some x := by
      have h := parse_pretty_val x 0 ((prettyV 0 x).length + 1) []
        (Nat.le_succ_of_le (sizeJ_le_pretty x 0)) rfl
      rw [List.append_nil] at h
      simp [parseJson, h]
      rfl
    cases m with
    | none => exact hpretty
    | some fmt =>
      cases fmt with
      | json => exact hpretty
      | compactJson =>
        have h := parse_compact_val x ((compactV x).length + 1) []
          (Nat.le_succ_of_le (sizeJ_le_compact x)) rfl
        rw [List.append_nil] at h
        simp [formatResponse, parseJson, h]
        rfl
  · intro hx
    rw [show formatResponse x (some .compactJson) = compactV x from rfl]
    rw [List.any_eq_false]
    intro c hc
    simp [compactV_noWs x hx c hc]

/-- Witness for C6 at a concrete nested value and each format mode. -/
theorem c6_formatResponse_roundtrip_witness :
    parseJson (formatResponse (Json.jobj (.cons (lc "a") (.jnum (-42)) (.cons (lc "b")
        (.jarr (.cons (.jbool true) (.cons .null (.cons (.jstr (lc "hi")) .nil)))) .nil)))
        (some .compactJson))
      = some (Json.jobj (.cons (lc "a") (.jnum (-42)) (.cons (lc "b")
        (.jarr (.cons (.jbool true) (.cons .null (.cons (.jstr (lc "hi")) .nil)))) .nil)))
    ∧ parseJson (formatResponse (Json.jobj (.cons (lc "a") (.jnum (-42)) (.cons (lc "b")
        (.jarr (.cons (.jbool true) (.cons .null (.cons (.jstr (lc "hi")) .nil)))) .nil)))
        none)
      = some (Json.jobj (.cons (lc "a") (.jnum (-42)) (.cons (lc "b")
        (.jarr (.cons (.jbool true) (.cons .null (.cons (.jstr (lc "hi")) .nil)))) .nil)))
    ∧ noWsJ (Json.jobj (.cons (lc "a") (.jnum (-42)) (.cons (lc "b")
        (.jarr (.cons (.jbool true) (.cons .null (.cons (.jstr (lc "hi")) .nil)))) .nil)))
      = true
    ∧ (formatResponse (Json.jobj (.cons (lc "a") (.jnum (-42)) (.cons (lc "b")
        (.jarr (.cons (.jbool true) (.cons .null (.cons (.jstr (lc "hi")) .nil)))) .nil)))
        (some .compactJson)).any isWsC = false :=
  ⟨(c6_formatResponse_roundtrip _ (some .compactJson)).1,
   (c6_formatResponse_roundtrip _ none).1,
   by decide,
   (c6_formatResponse_roundtrip _ (some .compactJson)).2.2 (by decide)⟩

end Mcp
